import Mathlib

/-!
Verification development for the MCP CRM adapter servers
(Pipedrive, FreshWorks/FreshDesk, GoHighLevel, Hubspot, Keap).

Each server exposes "tools" whose handlers validate input, build one HTTP
request, issue it, and normalise the response (or any fault) into a reply
envelope.  This file gives a shallow embedding of those handlers: text is
`List Char`, JSON values are an inductive type, HTTP transports are explicit
functions from requests to outcomes, and each handler is a pure function
from its validated input and a transport to the envelope it returns together
with the list of requests it issued.
-/

namespace MCPCRM

/-- Text is modelled as a list of characters. -/
abbrev Str := List Char

/-- Decimal digit character for `d` (expects `d < 10`). -/
def digitChar (d : Nat) : Char := Char.ofNat (48 + d)

/-- Decimal digit characters of a natural number, most significant first,
with explicit recursion fuel (any fuel exceeding `n` gives the digits).
Models how ECMAScript renders a non-negative integer in a template string. -/
def natToDigitsAux : Nat → Nat → Str
  | 0, _ => []
  | fuel + 1, n =>
    if n < 10 then [digitChar n]
    else natToDigitsAux fuel (n / 10) ++ [digitChar (n % 10)]

/-- Decimal digit characters of a natural number, most significant first. -/
def natToDigits (n : Nat) : Str := natToDigitsAux (n + 1) n

/-- Numeric value of a decimal digit character. -/
def digitVal (c : Char) : Nat := c.toNat - 48

/-- Natural number denoted by a list of decimal digit characters. -/
def digitsToNat (ds : Str) : Nat := ds.foldl (fun a c => 10 * a + digitVal c) 0

/-- Boolean decimal-digit test on characters. -/
def isDigitC (c : Char) : Bool := 48 ≤ c.toNat && c.toNat ≤ 57

theorem digitChar_toNat {d : Nat} (h : d < 10) : (digitChar d).toNat = 48 + d := by
  unfold digitChar; interval_cases d <;> decide

theorem digitVal_digitChar {d : Nat} (h : d < 10) : digitVal (digitChar d) = d := by
  simp [digitVal, digitChar_toNat h]

theorem isDigitC_digitChar {d : Nat} (h : d < 10) : isDigitC (digitChar d) = true := by
  simp [isDigitC, digitChar_toNat h]; omega

theorem natToDigitsAux_fuel (fuel : Nat) :
    ∀ n, n < fuel → natToDigitsAux fuel n = natToDigitsAux (n + 1) n := by
  induction fuel using Nat.strong_induction_on with
  | _ fuel ih =>
    intro n h
    cases fuel with
    | zero => omega
    | succ fuel =>
      by_cases h10 : n < 10
      · simp [natToDigitsAux, h10]
      · have hdn : n / 10 < n := Nat.div_lt_self (by omega) (by omega)
        simp [natToDigitsAux, h10]
        rw [ih fuel (by omega) (n / 10) (by omega), ih n (by omega) (n / 10) (by omega)]

theorem natToDigits_ne_nil (n : Nat) : natToDigits n ≠ [] := by
  rw [natToDigits, natToDigitsAux]
  split <;> simp

theorem natToDigits_digits (n : Nat) : ∀ c ∈ natToDigits n, isDigitC c = true := by
  induction n using Nat.strong_induction_on with
  | _ n ih =>
    rw [natToDigits, natToDigitsAux]
    split
    · next h => intro c hc; simp at hc; subst hc; exact isDigitC_digitChar h
    · next h =>
      intro c hc
      have hdn : n / 10 < n := Nat.div_lt_self (by omega) (by omega)
      rw [natToDigitsAux_fuel n (n / 10) hdn] at hc
      rcases List.mem_append.1 hc with h1 | h1
      · exact ih (n / 10) hdn c h1
      · simp at h1; subst h1; exact isDigitC_digitChar (by omega)

theorem natToDigits_foldl (n : Nat) : ∀ a : Nat,
    (natToDigits n).foldl (fun x c => 10 * x + digitVal c) a
      = a * 10 ^ (natToDigits n).length + n := by
  induction n using Nat.strong_induction_on with
  | _ n ih =>
    intro a
    rw [natToDigits, natToDigitsAux]
    split
    · next h => simp [digitVal_digitChar h]; ring
    · next h =>
      have hdn : n / 10 < n := Nat.div_lt_self (by omega) (by omega)
      rw [natToDigitsAux_fuel n (n / 10) hdn]
      rw [List.foldl_append]
      rw [show natToDigitsAux (n / 10 + 1) (n / 10) = natToDigits (n / 10) from rfl]
      rw [ih (n / 10) hdn a]
      have h10 : 10 * (n / 10) + n % 10 = n := Nat.div_add_mod n 10
      simp [digitVal_digitChar (Nat.mod_lt n (by omega)), List.length_append, pow_succ]
      ring_nf
      omega

theorem digitsToNat_natToDigits (n : Nat) : digitsToNat (natToDigits n) = n := by
  simpa [digitsToNat] using natToDigits_foldl n 0

/-- Decimal rendering of an integer, as produced by ECMAScript template
interpolation of an integral `number`. -/
def intToChars (i : Int) : Str :=
  if i < 0 then '-' :: natToDigits i.natAbs else natToDigits i.natAbs

/-- Predicate: the first character of the string, if any, fails `p`. -/
def headNot (p : Char → Bool) : Str → Prop
  | [] => True
  | c :: _ => p c = false

theorem takeWhile_all_append {p : Char → Bool} {a rest : Str}
    (h : ∀ c ∈ a, p c = true) (h2 : headNot p rest) :
    (a ++ rest).takeWhile p = a ∧ (a ++ rest).dropWhile p = rest := by
  induction a with
  | nil =>
    simp only [List.nil_append]
    cases rest with
    | nil => simp
    | cons c t =>
      simp only [headNot] at h2
      simp [List.takeWhile, List.dropWhile, h2]
  | cons c t ih =>
    have hc : p c = true := h c (by simp)
    have := ih (fun x hx => h x (by simp [hx]))
    simp [List.takeWhile, List.dropWhile, hc, this.1, this.2]

/-- Left brace character (written numerically). -/
def lbrace : Char := Char.ofNat 123

/-- Right brace character (written numerically). -/
def rbrace : Char := Char.ofNat 125

/-- Hexadecimal digit character in lowercase, for `d < 16`. -/
def hexDigitLower (d : Nat) : Char :=
  if d < 10 then digitChar d else Char.ofNat (87 + d)

/-- JSON escape of a single character, per the ECMAScript `QuoteJSONString`
operation used by `JSON.stringify`. -/
def escChar (c : Char) : Str :=
  if c = '"' then ['\\', '"']
  else if c = '\\' then ['\\', '\\']
  else if c.toNat < 32 then
    if c.toNat = 8 then ['\\', 'b']
    else if c.toNat = 9 then ['\\', 't']
    else if c.toNat = 10 then ['\\', 'n']
    else if c.toNat = 12 then ['\\', 'f']
    else if c.toNat = 13 then ['\\', 'r']
    else ['\\', 'u', '0', '0', hexDigitLower (c.toNat / 16), hexDigitLower (c.toNat % 16)]
  else [c]

/-- JSON escape of a whole string body. -/
def escStr : Str → Str
  | [] => []
  | c :: t => escChar c ++ escStr t

/-- A JSON string literal: quote, escaped body, quote. -/
def quoteStr (s : Str) : Str := '"' :: (escStr s ++ ['"'])

/-- Indentation: `n` space characters. -/
def pad (n : Nat) : Str := List.replicate n ' '

mutual
/-- Parsed JSON values, as produced by the ECMAScript runtime from a vendor
response body.  Numbers are modelled as integers: the servers only ever pass
numeric fields through unchanged, and ECMAScript guarantees that
`JSON.parse`/`JSON.stringify` round-trip every `number`, so fractional
values add nothing to the claims checked here. -/
inductive Json where
  | null
  | bool (b : Bool)
  | num (n : Int)
  | str (s : Str)
  | arr (xs : JsonList)
  | obj (fs : JsonFields)
deriving DecidableEq

/-- A list of JSON values (array elements). -/
inductive JsonList where
  | nil
  | cons (v : Json) (t : JsonList)
deriving DecidableEq

/-- A list of JSON object members (key/value pairs, in insertion order). -/
inductive JsonFields where
  | nil
  | cons (k : Str) (v : Json) (t : JsonFields)
deriving DecidableEq
end

mutual
/-- `JSON.stringify(v, null, 2)`: pretty serialisation with two-space
indentation.  `ind` is the current indentation width in spaces. -/
def ser : Json → Nat → Str
  | .null, _ => "null".data
  | .bool true, _ => "true".data
  | .bool false, _ => "false".data
  | .num n, _ => intToChars n
  | .str s, _ => quoteStr s
  | .arr .nil, _ => "[]".data
  | .arr (.cons v t), ind =>
      '[' :: '\n' :: (pad (ind + 2) ++ ser v (ind + 2) ++ serArrTail t (ind + 2)
        ++ '\n' :: (pad ind ++ "]".data))
  | .obj .nil, _ => "\x7b\x7d".data
  | .obj (.cons k v t), ind =>
      lbrace :: '\n' :: (pad (ind + 2) ++ quoteStr k ++ ':' :: ' ' ::
        (ser v (ind + 2) ++ serObjTail t (ind + 2) ++ '\n' :: (pad ind ++ [rbrace])))

/-- Remaining array elements of the pretty serialisation. -/
def serArrTail : JsonList → Nat → Str
  | .nil, _ => []
  | .cons v t, ind => ',' :: '\n' :: (pad ind ++ ser v ind ++ serArrTail t ind)

/-- Remaining object members of the pretty serialisation. -/
def serObjTail : JsonFields → Nat → Str
  | .nil, _ => []
  | .cons k v t, ind =>
      ',' :: '\n' :: (pad ind ++ quoteStr k ++ ':' :: ' ' :: (ser v ind ++ serObjTail t ind))
end

mutual
/-- `JSON.stringify(v)`: compact serialisation, no whitespace. -/
def serC : Json → Str
  | .null => "null".data
  | .bool true => "true".data
  | .bool false => "false".data
  | .num n => intToChars n
  | .str s => quoteStr s
  | .arr .nil => "[]".data
  | .arr (.cons v t) => '[' :: (serC v ++ serCArrTail t ++ "]".data)
  | .obj .nil => "\x7b\x7d".data
  | .obj (.cons k v t) => lbrace :: (quoteStr k ++ ':' :: (serC v ++ serCObjTail t ++ [rbrace]))

/-- Remaining array elements of the compact serialisation. -/
def serCArrTail : JsonList → Str
  | .nil => []
  | .cons v t => ',' :: (serC v ++ serCArrTail t)

/-- Remaining object members of the compact serialisation. -/
def serCObjTail : JsonFields → Str
  | .nil => []
  | .cons k v t => ',' :: (quoteStr k ++ ':' :: (serC v ++ serCObjTail t))
end

mutual
/-- Size measure of a JSON value, used as parser fuel bound. -/
def cost : Json → Nat
  | .null => 1
  | .bool _ => 1
  | .num _ => 1
  | .str _ => 1
  | .arr xs => 1 + costL xs
  | .obj fs => 1 + costF fs

/-- Size measure of a JSON array tail. -/
def costL : JsonList → Nat
  | .nil => 1
  | .cons v t => 1 + cost v + costL t

/-- Size measure of a JSON member list. -/
def costF : JsonFields → Nat
  | .nil => 1
  | .cons _ v t => 1 + cost v + costF t
end

/-- JSON whitespace, per `JSON.parse`. -/
def isWs (c : Char) : Bool := c = ' ' || c = '\n' || c = '\t' || c = '\r'

/-- Skip leading JSON whitespace. -/
def skipWs (cs : Str) : Str := cs.dropWhile isWs

/-- Value of a hexadecimal digit character, if it is one. -/
def hexVal (c : Char) : Option Nat :=
  if 48 ≤ c.toNat && c.toNat ≤ 57 then some (c.toNat - 48)
  else if 97 ≤ c.toNat && c.toNat ≤ 102 then some (c.toNat - 87)
  else if 65 ≤ c.toNat && c.toNat ≤ 70 then some (c.toNat - 55)
  else none

/-- Consume an expected literal character sequence. -/
def afterLit : Str → Str → Option Str
  | [], cs => some cs
  | _ :: _, [] => none
  | l :: lt, c :: ct => if c = l then afterLit lt ct else none

/-- Parse the body of a JSON string literal after the opening quote,
returning the decoded string and the rest after the closing quote. -/
def parseStrRest : Str → Option (Str × Str)
  | [] => none
  | c :: r =>
    if c = '"' then some ([], r)
    else if c = '\\' then
      match r with
      | [] => none
      | e :: r1 =>
        if e = '"' then (parseStrRest r1).map (fun p => ('"' :: p.1, p.2))
        else if e = '\\' then (parseStrRest r1).map (fun p => ('\\' :: p.1, p.2))
        else if e = '/' then (parseStrRest r1).map (fun p => ('/' :: p.1, p.2))
        else if e = 'b' then (parseStrRest r1).map (fun p => (Char.ofNat 8 :: p.1, p.2))
        else if e = 't' then (parseStrRest r1).map (fun p => (Char.ofNat 9 :: p.1, p.2))
        else if e = 'n' then (parseStrRest r1).map (fun p => (Char.ofNat 10 :: p.1, p.2))
        else if e = 'f' then (parseStrRest r1).map (fun p => (Char.ofNat 12 :: p.1, p.2))
        else if e = 'r' then (parseStrRest r1).map (fun p => (Char.ofNat 13 :: p.1, p.2))
        else if e = 'u' then
          match r1 with
          | h1 :: h2 :: h3 :: h4 :: r2 =>
            match hexVal h1, hexVal h2, hexVal h3, hexVal h4 with
            | some a, some b, some hc, some hd =>
              (parseStrRest r2).map
                (fun p => (Char.ofNat (4096 * a + 256 * b + 16 * hc + hd) :: p.1, p.2))
            | _, _, _, _ => none
          | _ => none
        else none
    else if c.toNat < 32 then none
    else (parseStrRest r).map (fun p => (c :: p.1, p.2))

/-- Parse a maximal run of decimal digits as a natural number. -/
def parseNatChars (cs : Str) : Option (Nat × Str) :=
  let ds := cs.takeWhile isDigitC
  if ds.isEmpty then none else some (digitsToNat ds, cs.dropWhile isDigitC)

mutual
/-- Fuel-bounded JSON value parser modelling `JSON.parse`: skips leading
whitespace, consumes exactly one JSON value, returns it and the rest. -/
def parseVal : Nat → Str → Option (Json × Str)
  | 0, _ => none
  | f + 1, cs =>
    match skipWs cs with
    | [] => none
    | c :: r =>
      if c = 'n' then (afterLit "ull".data r).map (fun r1 => (.null, r1))
      else if c = 't' then (afterLit "rue".data r).map (fun r1 => (.bool true, r1))
      else if c = 'f' then (afterLit "alse".data r).map (fun r1 => (.bool false, r1))
      else if c = '"' then (parseStrRest r).map (fun p => (.str p.1, p.2))
      else if c = '-' then (parseNatChars r).map (fun p => (.num (-(p.1 : Int)), p.2))
      else if c = '[' then (parseArr f r).map (fun p => (.arr p.1, p.2))
      else if c = lbrace then (parseObj f r).map (fun p => (.obj p.1, p.2))
      else if isDigitC c then (parseNatChars (c :: r)).map (fun p => (.num (p.1 : Int), p.2))
      else none

/-- Parse the elements of a JSON array, after the opening bracket. -/
def parseArr : Nat → Str → Option (JsonList × Str)
  | 0, _ => none
  | f + 1, cs =>
    match skipWs cs with
    | [] => none
    | c :: r =>
      if c = ']' then some (.nil, r)
      else
        match parseVal f cs with
        | none => none
        | some (v, r1) =>
          match parseArrTailP f r1 with
          | none => none
          | some (t, r2) => some (.cons v t, r2)

/-- After one array element: parse `, element`* and the closing bracket. -/
def parseArrTailP : Nat → Str → Option (JsonList × Str)
  | 0, _ => none
  | f + 1, cs =>
    match skipWs cs with
    | [] => none
    | c :: r =>
      if c = ']' then some (.nil, r)
      else if c = ',' then
        match parseVal f r with
        | none => none
        | some (v, r1) =>
          match parseArrTailP f r1 with
          | none => none
          | some (t, r2) => some (.cons v t, r2)
      else none

/-- Parse the members of a JSON object, after the opening brace. -/
def parseObj : Nat → Str → Option (JsonFields × Str)
  | 0, _ => none
  | f + 1, cs =>
    match skipWs cs with
    | [] => none
    | c :: r =>
      if c = rbrace then some (.nil, r)
      else if c = '"' then
        match parseStrRest r with
        | none => none
        | some (k, r1) =>
          match skipWs r1 with
          | [] => none
          | c2 :: r2 =>
            if c2 = ':' then
              match parseVal f r2 with
              | none => none
              | some (v, r3) =>
                match parseObjTailP f r3 with
                | none => none
                | some (t, r4) => some (.cons k v t, r4)
            else none
      else none

/-- After one object member: parse `, "key": value`* and the closing brace. -/
def parseObjTailP : Nat → Str → Option (JsonFields × Str)
  | 0, _ => none
  | f + 1, cs =>
    match skipWs cs with
    | [] => none
    | c :: r =>
      if c = rbrace then some (.nil, r)
      else if c = ',' then
        match skipWs r with
        | [] => none
        | c1 :: r0 =>
          if c1 = '"' then
            match parseStrRest r0 with
            | none => none
            | some (k, r1) =>
              match skipWs r1 with
              | [] => none
              | c2 :: r2 =>
                if c2 = ':' then
                  match parseVal f r2 with
                  | none => none
                  | some (v, r3) =>
                    match parseObjTailP f r3 with
                    | none => none
                    | some (t, r4) => some (.cons k v t, r4)
                else none
          else none
      else none
end

/-- `JSON.parse` on a whole document: one value, then only trailing
whitespace.  The fuel `s.length + 1` dominates the nesting depth. -/
def jsonParse (s : Str) : Option Json :=
  match parseVal (s.length + 1) s with
  | some (v, r) => if (skipWs r).isEmpty then some v else none
  | none => none

/-- Every character of the string is JSON whitespace. -/
def AllWs (pre : Str) : Prop := ∀ c ∈ pre, isWs c = true

theorem skipWs_append_ws {pre : Str} (h : AllWs pre) (cs : Str) :
    skipWs (pre ++ cs) = skipWs cs := by
  induction pre with
  | nil => rfl
  | cons c t ih =>
    have hc : isWs c = true := h c (by simp)
    simp only [List.cons_append, skipWs, List.dropWhile_cons, hc, if_true]
    exact ih (fun x hx => h x (by simp [hx]))

theorem skipWs_cons_neg {c : Char} (h : isWs c = false) (t : Str) :
    skipWs (c :: t) = c :: t := by
  simp [skipWs, List.dropWhile_cons, h]

theorem allWs_pad (n : Nat) : AllWs (pad n) := by
  intro c hc
  have : c = ' ' := List.eq_of_mem_replicate hc
  subst this; decide

theorem allWs_nl_pad (n : Nat) : AllWs ('\n' :: pad n) := by
  intro c hc
  rcases hc with _ | hc
  · decide
  · exact allWs_pad n c (by assumption)

theorem allWs_space : AllWs [' '] := by intro c hc; simp at hc; subst hc; decide

theorem cost_pos (v : Json) : 1 ≤ cost v := by cases v <;> simp [cost]

theorem costL_pos (t : JsonList) : 1 ≤ costL t := by
  cases t
  · simp [costL]
  · simp [costL]; omega

theorem costF_pos (t : JsonFields) : 1 ≤ costF t := by
  cases t
  · simp [costF]
  · simp [costF]; omega

/-- Remainder of the pretty form of an array after the opening bracket. -/
def arrInner : JsonList → Nat → Str
  | .nil, _ => "]".data
  | .cons v t, ind =>
      '\n' :: (pad (ind + 2) ++ ser v (ind + 2) ++ serArrTail t (ind + 2)
        ++ '\n' :: (pad ind ++ "]".data))

/-- Remainder of the pretty form of an object after the opening brace. -/
def objInner : JsonFields → Nat → Str
  | .nil, _ => [rbrace]
  | .cons k v t, ind =>
      '\n' :: (pad (ind + 2) ++ quoteStr k ++ ':' :: ' ' ::
        (ser v (ind + 2) ++ serObjTail t (ind + 2) ++ '\n' :: (pad ind ++ [rbrace])))

theorem ser_arr (xs : JsonList) (ind : Nat) : ser (.arr xs) ind = '[' :: arrInner xs ind := by
  cases xs <;> rfl

theorem ser_obj (fs : JsonFields) (ind : Nat) : ser (.obj fs) ind = lbrace :: objInner fs ind := by
  cases fs <;> rfl

theorem afterLit_append (lit rest : Str) : afterLit lit (lit ++ rest) = some rest := by
  induction lit with
  | nil => rfl
  | cons l lt ih => simp [afterLit, ih]

theorem digit_head_facts {c : Char} (h : isDigitC c = true) :
    c ≠ 'n' ∧ c ≠ 't' ∧ c ≠ 'f' ∧ c ≠ '"' ∧ c ≠ '-' ∧ c ≠ '[' ∧ c ≠ lbrace ∧
      isWs c = false ∧ c ≠ ']' ∧ c ≠ rbrace ∧ c ≠ ',' ∧ c ≠ ':' := by
  have hb : 48 ≤ c.toNat ∧ c.toNat ≤ 57 := by simpa [isDigitC] using h
  have hw : isWs c = false := by
    cases hws : isWs c
    · rfl
    · exfalso
      have : ((c = ' ' ∨ c = '\n') ∨ c = '\t') ∨ c = '\r' := by
        simpa [isWs, Bool.or_eq_true, decide_eq_true_eq] using hws
      rcases this with ((rfl | rfl) | rfl) | rfl <;> revert hb <;> decide
  refine ⟨?_, ?_, ?_, ?_, ?_, ?_, ?_, hw, ?_, ?_, ?_, ?_⟩ <;>
    (rintro rfl; revert hb; decide)

theorem headNot_cons {p : Char → Bool} {c : Char} (h : p c = false) (z : Str) :
    headNot p (c :: z) := h

theorem hnd_serArrTail (t : JsonList) (i : Nat) {z : Str} (hz : headNot isDigitC z) :
    headNot isDigitC (serArrTail t i ++ z) := by
  cases t with
  | nil => simpa [serArrTail] using hz
  | cons v t => exact headNot_cons (by decide) _

theorem hnd_serObjTail (t : JsonFields) (i : Nat) {z : Str} (hz : headNot isDigitC z) :
    headNot isDigitC (serObjTail t i ++ z) := by
  cases t with
  | nil => simpa [serObjTail] using hz
  | cons k v t => exact headNot_cons (by decide) _

theorem serHead (v : Json) (ind : Nat) :
    ∃ c t, ser v ind = c :: t ∧ isWs c = false ∧ c ≠ ']' ∧ c ≠ rbrace ∧ c ≠ ',' := by
  cases v with
  | null => exact ⟨'n', "ull".data, rfl, by decide, by decide, by decide, by decide⟩
  | bool b =>
    cases b
    · exact ⟨'f', "alse".data, rfl, by decide, by decide, by decide, by decide⟩
    · exact ⟨'t', "rue".data, rfl, by decide, by decide, by decide, by decide⟩
  | num n =>
    by_cases hn : n < 0
    · exact ⟨'-', natToDigits n.natAbs, by simp [ser, intToChars, hn], by decide, by decide,
        by decide, by decide⟩
    · obtain ⟨c, t, hct⟩ := List.exists_cons_of_ne_nil (natToDigits_ne_nil n.natAbs)
      have hd : isDigitC c = true := natToDigits_digits _ c (by rw [hct]; simp)
      obtain ⟨-, -, -, -, -, -, -, hw, h9, h10, h11, -⟩ := digit_head_facts hd
      exact ⟨c, t, by simp [ser, intToChars, hn, hct], hw, h9, h10, h11⟩
  | str s => exact ⟨'"', escStr s ++ ['"'], rfl, by decide, by decide, by decide, by decide⟩
  | arr xs => exact ⟨'[', arrInner xs ind, ser_arr xs ind, by decide, by decide, by decide,
      by decide⟩
  | obj fs => exact ⟨lbrace, objInner fs ind, ser_obj fs ind, by decide, by decide, by decide,
      by decide⟩

theorem hexVal_hexDigitLower {d : Nat} (h : d < 16) : hexVal (hexDigitLower d) = some d := by
  unfold hexVal hexDigitLower digitChar
  interval_cases d <;> decide

theorem parseNatChars_natToDigits (m : Nat) {rest : Str} (h : headNot isDigitC rest) :
    parseNatChars (natToDigits m ++ rest) = some (m, rest) := by
  obtain ⟨h1, h2⟩ := takeWhile_all_append (natToDigits_digits m) h
  have hne : (natToDigits m).isEmpty = false := by
    cases hcc : natToDigits m
    · exact absurd hcc (natToDigits_ne_nil m)
    · rfl
  simp [parseNatChars, h1, h2, hne, digitsToNat_natToDigits]

theorem parseStrRest_esc (s rest : Str) :
    parseStrRest (escStr s ++ '"' :: rest) = some (s, rest) := by
  induction s with
  | nil =>
    rw [show escStr [] ++ '"' :: rest = '"' :: rest from rfl, parseStrRest.eq_def]
    simp
  | cons c t ih =>
    by_cases h1 : c = '"'
    · subst h1
      rw [show escStr ('"' :: t) ++ '"' :: rest = '\\' :: '"' :: (escStr t ++ '"' :: rest)
          from by simp [escStr, escChar], parseStrRest.eq_def]
      simp [ih]
    · by_cases h2 : c = '\\'
      · subst h2
        rw [show escStr ('\\' :: t) ++ '"' :: rest = '\\' :: '\\' :: (escStr t ++ '"' :: rest)
            from by simp [escStr, escChar], parseStrRest.eq_def]
        simp [ih]
      · by_cases h3 : c.toNat < 32
        · by_cases h8 : c.toNat = 8
          · have hc : Char.ofNat 8 = c := by rw [← h8, Char.ofNat_toNat]
            rw [show escStr (c :: t) ++ '"' :: rest = '\\' :: 'b' :: (escStr t ++ '"' :: rest)
                from by simp [escStr, escChar, h1, h2, h3, h8], parseStrRest.eq_def]
            simp [ih]
            exact hc
          · by_cases h9 : c.toNat = 9
            · have hc : Char.ofNat 9 = c := by rw [← h9, Char.ofNat_toNat]
              rw [show escStr (c :: t) ++ '"' :: rest = '\\' :: 't' :: (escStr t ++ '"' :: rest)
                  from by simp [escStr, escChar, h1, h2, h3, h8, h9], parseStrRest.eq_def]
              simp [ih]
              exact hc
            · by_cases h10 : c.toNat = 10
              · have hc : Char.ofNat 10 = c := by rw [← h10, Char.ofNat_toNat]
                rw [show escStr (c :: t) ++ '"' :: rest
                    = '\\' :: 'n' :: (escStr t ++ '"' :: rest)
                    from by simp [escStr, escChar, h1, h2, h3, h8, h9, h10], parseStrRest.eq_def]
                simp [ih]
                exact hc
              · by_cases h12 : c.toNat = 12
                · have hc : Char.ofNat 12 = c := by rw [← h12, Char.ofNat_toNat]
                  rw [show escStr (c :: t) ++ '"' :: rest
                      = '\\' :: 'f' :: (escStr t ++ '"' :: rest)
                      from by simp [escStr, escChar, h1, h2, h3, h8, h9, h10, h12],
                    parseStrRest.eq_def]
                  simp [ih]
                  exact hc
                · by_cases h13 : c.toNat = 13
                  · have hc : Char.ofNat 13 = c := by rw [← h13, Char.ofNat_toNat]
                    rw [show escStr (c :: t) ++ '"' :: rest
                        = '\\' :: 'r' :: (escStr t ++ '"' :: rest)
                        from by simp [escStr, escChar, h1, h2, h3, h8, h9, h10, h12, h13],
                      parseStrRest.eq_def]
                    simp [ih]
                    exact hc
                  · have hdiv : c.toNat / 16 < 16 := by omega
                    have hmod : c.toNat % 16 < 16 := Nat.mod_lt _ (by omega)
                    have e1 := hexVal_hexDigitLower hdiv
                    have e2 := hexVal_hexDigitLower hmod
                    have hc : Char.ofNat (16 * (c.toNat / 16) + c.toNat % 16) = c := by
                      rw [show 16 * (c.toNat / 16) + c.toNat % 16 = c.toNat by omega,
                        Char.ofNat_toNat]
                    rw [show escStr (c :: t) ++ '"' :: rest
                        = '\\' :: 'u' :: '0' :: '0' :: hexDigitLower (c.toNat / 16)
                          :: hexDigitLower (c.toNat % 16) :: (escStr t ++ '"' :: rest)
                        from by simp [escStr, escChar, h1, h2, h3, h8, h9, h10, h12, h13],
                      parseStrRest.eq_def]
                    simp [show hexVal '0' = some 0 from by decide, e1, e2, ih, hc]
        · rw [show escStr (c :: t) ++ '"' :: rest = c :: (escStr t ++ '"' :: rest)
              from by simp [escStr, escChar, h1, h2, h3], parseStrRest.eq_def]
          simp [h1, h2, h3, ih]

theorem skipWs_cons_ws {c : Char} (h : isWs c = true) (t : Str) :
    skipWs (c :: t) = skipWs t := by
  simp [skipWs, List.dropWhile_cons, h]

theorem parseVal_succ (f : Nat) (cs : Str) :
    parseVal (f + 1) cs
      = match skipWs cs with
        | [] => none
        | c :: r =>
          if c = 'n' then (afterLit "ull".data r).map (fun r1 => (.null, r1))
          else if c = 't' then (afterLit "rue".data r).map (fun r1 => (.bool true, r1))
          else if c = 'f' then (afterLit "alse".data r).map (fun r1 => (.bool false, r1))
          else if c = '"' then (parseStrRest r).map (fun p => (.str p.1, p.2))
          else if c = '-' then (parseNatChars r).map (fun p => (.num (-(p.1 : Int)), p.2))
          else if c = '[' then (parseArr f r).map (fun p => (.arr p.1, p.2))
          else if c = lbrace then (parseObj f r).map (fun p => (.obj p.1, p.2))
          else if isDigitC c then
            (parseNatChars (c :: r)).map (fun p => (.num (p.1 : Int), p.2))
          else none := rfl

theorem parseArr_succ (f : Nat) (cs : Str) :
    parseArr (f + 1) cs
      = match skipWs cs with
        | [] => none
        | c :: r =>
          if c = ']' then some (.nil, r)
          else
            match parseVal f cs with
            | none => none
            | some (v, r1) =>
              match parseArrTailP f r1 with
              | none => none
              | some (t, r2) => some (.cons v t, r2) := rfl

theorem parseArrTailP_succ (f : Nat) (cs : Str) :
    parseArrTailP (f + 1) cs
      = match skipWs cs with
        | [] => none
        | c :: r =>
          if c = ']' then some (.nil, r)
          else if c = ',' then
            match parseVal f r with
            | none => none
            | some (v, r1) =>
              match parseArrTailP f r1 with
              | none => none
              | some (t, r2) => some (.cons v t, r2)
          else none := rfl

theorem parseObj_succ (f : Nat) (cs : Str) :
    parseObj (f + 1) cs
      = match skipWs cs with
        | [] => none
        | c :: r =>
          if c = rbrace then some (.nil, r)
          else if c = '"' then
            match parseStrRest r with
            | none => none
            | some (k, r1) =>
              match skipWs r1 with
              | [] => none
              | c2 :: r2 =>
                if c2 = ':' then
                  match parseVal f r2 with
                  | none => none
                  | some (v, r3) =>
                    match parseObjTailP f r3 with
                    | none => none
                    | some (t, r4) => some (.cons k v t, r4)
                else none
          else none := rfl

theorem parseObjTailP_succ (f : Nat) (cs : Str) :
    parseObjTailP (f + 1) cs
      = match skipWs cs with
        | [] => none
        | c :: r =>
          if c = rbrace then some (.nil, r)
          else if c = ',' then
            match skipWs r with
            | [] => none
            | c1 :: r0 =>
              if c1 = '"' then
                match parseStrRest r0 with
                | none => none
                | some (k, r1) =>
                  match skipWs r1 with
                  | [] => none
                  | c2 :: r2 =>
                    if c2 = ':' then
                      match parseVal f r2 with
                      | none => none
                      | some (v, r3) =>
                        match parseObjTailP f r3 with
                        | none => none
                        | some (t, r4) => some (.cons k v t, r4)
                    else none
              else none
          else none := rfl

theorem cost_arr (xs : JsonList) : cost (Json.arr xs) = 1 + costL xs := rfl

theorem cost_obj (fs : JsonFields) : cost (Json.obj fs) = 1 + costF fs := rfl

theorem costL_cons (v : Json) (t : JsonList) :
    costL (JsonList.cons v t) = 1 + cost v + costL t := rfl

theorem costF_cons (k : Str) (v : Json) (t : JsonFields) :
    costF (JsonFields.cons k v t) = 1 + cost v + costF t := rfl

theorem rtMain : ∀ f : Nat,
    (∀ v ind pre rest, AllWs pre → cost v ≤ f → headNot isDigitC rest →
      parseVal f (pre ++ (ser v ind ++ rest)) = some (v, rest))
    ∧ (∀ xs ind rest, costL xs ≤ f →
        parseArr f (arrInner xs ind ++ rest) = some (xs, rest))
    ∧ (∀ t i j rest, costL t ≤ f →
        parseArrTailP f (serArrTail t i ++ '\n' :: (pad j ++ ']' :: rest)) = some (t, rest))
    ∧ (∀ fs ind rest, costF fs ≤ f →
        parseObj f (objInner fs ind ++ rest) = some (fs, rest))
    ∧ (∀ t i j rest, costF t ≤ f →
        parseObjTailP f (serObjTail t i ++ '\n' :: (pad j ++ rbrace :: rest))
          = some (t, rest)) := by
  intro f
  induction f with
  | zero =>
    refine ⟨?_, ?_, ?_, ?_, ?_⟩
    · intro v _ _ _ _ hc _; have := cost_pos v; omega
    · intro xs _ _ hc; have := costL_pos xs; omega
    · intro t _ _ _ hc; have := costL_pos t; omega
    · intro fs _ _ hc; have := costF_pos fs; omega
    · intro t _ _ _ hc; have := costF_pos t; omega
  | succ f ih =>
    obtain ⟨ihV, ihA, ihAT, ihO, ihOT⟩ := ih
    refine ⟨?_, ?_, ?_, ?_, ?_⟩
    · -- parseVal
      intro v ind pre rest hpre hcost hrest
      rw [parseVal_succ]
      cases v with
      | null =>
        rw [show ser Json.null ind ++ rest = 'n' :: ("ull".data ++ rest) from rfl]
        simp [skipWs_append_ws hpre, skipWs_cons_neg (show isWs 'n' = false from by decide),
          afterLit]
      | bool b =>
        cases b
        · rw [show ser (Json.bool false) ind ++ rest = 'f' :: ("alse".data ++ rest) from rfl]
          simp [skipWs_append_ws hpre, skipWs_cons_neg (show isWs 'f' = false from by decide),
            afterLit]
        · rw [show ser (Json.bool true) ind ++ rest = 't' :: ("rue".data ++ rest) from rfl]
          simp [skipWs_append_ws hpre, skipWs_cons_neg (show isWs 't' = false from by decide),
            afterLit]
      | num n =>
        by_cases hn : n < 0
        · rw [show ser (Json.num n) ind ++ rest = '-' :: (natToDigits n.natAbs ++ rest) from by
            simp [ser, intToChars, hn]]
          have hp := parseNatChars_natToDigits n.natAbs hrest
          have hneg : -((n.natAbs : Nat) : Int) = n := by omega
          simp [skipWs_append_ws hpre, skipWs_cons_neg (show isWs '-' = false from by decide),
            hp, hneg]
          rw [abs_of_neg hn]
          ring
        · obtain ⟨c, t0, hct⟩ := List.exists_cons_of_ne_nil (natToDigits_ne_nil n.natAbs)
          have hd : isDigitC c = true := natToDigits_digits _ c (by rw [hct]; simp)
          obtain ⟨g1, g2, g3, g4, g5, g6, g7, g8, g9, g10, g11, g12⟩ := digit_head_facts hd
          rw [show ser (Json.num n) ind ++ rest = c :: (t0 ++ rest) from by
            simp [ser, intToChars, hn, hct]]
          have hpn : parseNatChars (c :: (t0 ++ rest)) = some (n.natAbs, rest) := by
            rw [show c :: (t0 ++ rest) = natToDigits n.natAbs ++ rest from by simp [hct]]
            exact parseNatChars_natToDigits n.natAbs hrest
          have hcast : ((n.natAbs : Nat) : Int) = n := by omega
          simp [skipWs_append_ws hpre, skipWs_cons_neg g8, g1, g2, g3, g4, g5, g6, g7, hd,
            hpn, hcast]
      | str s =>
        rw [show ser (Json.str s) ind ++ rest = '"' :: (escStr s ++ '"' :: rest) from by
          simp [ser, quoteStr]]
        simp [skipWs_append_ws hpre, skipWs_cons_neg (show isWs '"' = false from by decide),
          parseStrRest_esc]
      | arr xs =>
        have hxs : costL xs ≤ f := by rw [cost_arr] at hcost; omega
        rw [ser_arr]
        simp only [List.cons_append]
        simp [skipWs_append_ws hpre, skipWs_cons_neg (show isWs '[' = false from by decide),
          ihA xs ind rest hxs]
      | obj fs =>
        have hfs : costF fs ≤ f := by rw [cost_obj] at hcost; omega
        rw [ser_obj]
        simp only [List.cons_append]
        simp [skipWs_append_ws hpre, skipWs_cons_neg (show isWs lbrace = false from by decide),
          show lbrace ≠ 'n' from by decide, show lbrace ≠ 't' from by decide,
          show lbrace ≠ 'f' from by decide, show lbrace ≠ '"' from by decide,
          show lbrace ≠ '-' from by decide, show lbrace ≠ '[' from by decide,
          ihO fs ind rest hfs]
    · -- parseArr
      intro xs ind rest hcost
      cases xs with
      | nil =>
        rw [parseArr_succ]
        rw [show arrInner JsonList.nil ind ++ rest = ']' :: rest from rfl]
        simp [skipWs_cons_neg (show isWs ']' = false from by decide)]
      | cons v t =>
        have hb : cost v ≤ f ∧ costL t ≤ f := by
          rw [costL_cons] at hcost
          have := cost_pos v; have := costL_pos t; omega
        rw [show arrInner (JsonList.cons v t) ind ++ rest
            = '\n' :: (pad (ind + 2) ++ (ser v (ind + 2) ++ (serArrTail t (ind + 2)
                ++ '\n' :: (pad ind ++ (']' :: rest)))))
            from by simp [arrInner]]
        rw [parseArr_succ]
        obtain ⟨c, t0, hser, hwc, hc1, hc2, hc3⟩ := serHead v (ind + 2)
        have hnd : headNot isDigitC (serArrTail t (ind + 2)
            ++ '\n' :: (pad ind ++ (']' :: rest))) :=
          hnd_serArrTail t (ind + 2) (headNot_cons (by decide) _)
        have hv : parseVal f ('\n' :: (pad (ind + 2) ++ (ser v (ind + 2)
            ++ (serArrTail t (ind + 2) ++ '\n' :: (pad ind ++ (']' :: rest))))))
            = some (v, serArrTail t (ind + 2) ++ '\n' :: (pad ind ++ (']' :: rest))) := by
          have := ihV v (ind + 2) ('\n' :: pad (ind + 2))
            (serArrTail t (ind + 2) ++ '\n' :: (pad ind ++ (']' :: rest)))
            (allWs_nl_pad _) hb.1 hnd
          simpa using this
        have hskip : skipWs ('\n' :: (pad (ind + 2) ++ (ser v (ind + 2)
            ++ (serArrTail t (ind + 2) ++ '\n' :: (pad ind ++ (']' :: rest))))))
            = c :: (t0 ++ (serArrTail t (ind + 2) ++ '\n' :: (pad ind ++ (']' :: rest)))) := by
          rw [skipWs_cons_ws (by decide), skipWs_append_ws (allWs_pad _), hser]
          rw [show (c :: t0) ++ (serArrTail t (ind + 2) ++ '\n' :: (pad ind ++ (']' :: rest)))
              = c :: (t0 ++ (serArrTail t (ind + 2) ++ '\n' :: (pad ind ++ (']' :: rest))))
              from by simp]
          exact skipWs_cons_neg hwc _
        rw [hskip]
        simp only [hc1, if_false]
        rw [hv]
        simp [ihAT t (ind + 2) ind rest hb.2]
    · -- parseArrTailP
      intro t i j rest hcost
      cases t with
      | nil =>
        rw [parseArrTailP_succ]
        rw [show serArrTail JsonList.nil i ++ '\n' :: (pad j ++ ']' :: rest)
            = '\n' :: (pad j ++ (']' :: rest)) from by simp [serArrTail]]
        rw [show skipWs ('\n' :: (pad j ++ (']' :: rest))) = ']' :: rest from by
          rw [skipWs_cons_ws (by decide), skipWs_append_ws (allWs_pad _)]
          exact skipWs_cons_neg (by decide) _]
        simp
      | cons v t =>
        have hb : cost v ≤ f ∧ costL t ≤ f := by
          rw [costL_cons] at hcost
          have := cost_pos v; have := costL_pos t; omega
        rw [show serArrTail (JsonList.cons v t) i ++ '\n' :: (pad j ++ ']' :: rest)
            = ',' :: '\n' :: (pad i ++ (ser v i ++ (serArrTail t i
                ++ '\n' :: (pad j ++ (']' :: rest)))))
            from by simp [serArrTail]]
        rw [parseArrTailP_succ]
        have hnd : headNot isDigitC (serArrTail t i ++ '\n' :: (pad j ++ (']' :: rest))) :=
          hnd_serArrTail t i (headNot_cons (by decide) _)
        have hv : parseVal f ('\n' :: (pad i ++ (ser v i ++ (serArrTail t i
            ++ '\n' :: (pad j ++ (']' :: rest))))))
            = some (v, serArrTail t i ++ '\n' :: (pad j ++ (']' :: rest))) := by
          have := ihV v i ('\n' :: pad i)
            (serArrTail t i ++ '\n' :: (pad j ++ (']' :: rest))) (allWs_nl_pad _) hb.1 hnd
          simpa using this
        rw [skipWs_cons_neg (show isWs ',' = false from by decide)]
        simp only [show (',' : Char) ≠ ']' from by decide, if_false, if_pos rfl]
        rw [hv]
        simp [ihAT t i j rest hb.2]
    · -- parseObj
      intro fs ind rest hcost
      cases fs with
      | nil =>
        rw [parseObj_succ]
        rw [show objInner JsonFields.nil ind ++ rest = rbrace :: rest from rfl]
        rw [skipWs_cons_neg (show isWs rbrace = false from by decide)]
        simp
      | cons k v t =>
        have hb : cost v ≤ f ∧ costF t ≤ f := by
          rw [costF_cons] at hcost
          have := cost_pos v; have := costF_pos t; omega
        rw [show objInner (JsonFields.cons k v t) ind ++ rest
            = '\n' :: (pad (ind + 2) ++ ('"' :: (escStr k ++ '"' :: (':' :: ' '
                :: (ser v (ind + 2) ++ (serObjTail t (ind + 2)
                  ++ '\n' :: (pad ind ++ (rbrace :: rest))))))))
            from by simp [objInner, quoteStr]]
        rw [parseObj_succ]
        have hnd : headNot isDigitC (serObjTail t (ind + 2)
            ++ '\n' :: (pad ind ++ (rbrace :: rest))) :=
          hnd_serObjTail t (ind + 2) (headNot_cons (by decide) _)
        have hv : parseVal f (' ' :: (ser v (ind + 2) ++ (serObjTail t (ind + 2)
            ++ '\n' :: (pad ind ++ (rbrace :: rest)))))
            = some (v, serObjTail t (ind + 2) ++ '\n' :: (pad ind ++ (rbrace :: rest))) := by
          have := ihV v (ind + 2) [' ']
            (serObjTail t (ind + 2) ++ '\n' :: (pad ind ++ (rbrace :: rest)))
            allWs_space hb.1 hnd
          simpa using this
        rw [show skipWs ('\n' :: (pad (ind + 2) ++ ('"' :: (escStr k ++ '"' :: (':' :: ' '
            :: (ser v (ind + 2) ++ (serObjTail t (ind + 2)
              ++ '\n' :: (pad ind ++ (rbrace :: rest)))))))))
            = '"' :: (escStr k ++ '"' :: (':' :: ' ' :: (ser v (ind + 2)
              ++ (serObjTail t (ind + 2) ++ '\n' :: (pad ind ++ (rbrace :: rest))))))
            from by
          rw [skipWs_cons_ws (by decide), skipWs_append_ws (allWs_pad _)]
          exact skipWs_cons_neg (by decide) _]
        simp only [show ('"' : Char) ≠ rbrace from by decide, if_false, if_pos rfl]
        rw [parseStrRest_esc]
        simp [skipWs_cons_neg (show isWs ':' = false from by decide), hv,
          ihOT t (ind + 2) ind rest hb.2]
    · -- parseObjTailP
      intro t i j rest hcost
      cases t with
      | nil =>
        rw [parseObjTailP_succ]
        rw [show serObjTail JsonFields.nil i ++ '\n' :: (pad j ++ rbrace :: rest)
            = '\n' :: (pad j ++ (rbrace :: rest)) from by simp [serObjTail]]
        rw [show skipWs ('\n' :: (pad j ++ (rbrace :: rest))) = rbrace :: rest from by
          rw [skipWs_cons_ws (by decide), skipWs_append_ws (allWs_pad _)]
          exact skipWs_cons_neg (by decide) _]
        simp
      | cons k v t =>
        have hb : cost v ≤ f ∧ costF t ≤ f := by
          rw [costF_cons] at hcost
          have := cost_pos v; have := costF_pos t; omega
        rw [show serObjTail (JsonFields.cons k v t) i ++ '\n' :: (pad j ++ rbrace :: rest)
            = ',' :: '\n' :: (pad i ++ ('"' :: (escStr k ++ '"' :: (':' :: ' '
                :: (ser v i ++ (serObjTail t i ++ '\n' :: (pad j ++ (rbrace :: rest))))))))
            from by simp [serObjTail, quoteStr]]
        rw [parseObjTailP_succ]
        have hnd : headNot isDigitC (serObjTail t i ++ '\n' :: (pad j ++ (rbrace :: rest))) :=
          hnd_serObjTail t i (headNot_cons (by decide) _)
        have hv : parseVal f (' ' :: (ser v i ++ (serObjTail t i
            ++ '\n' :: (pad j ++ (rbrace :: rest)))))
            = some (v, serObjTail t i ++ '\n' :: (pad j ++ (rbrace :: rest))) := by
          have := ihV v i [' ']
            (serObjTail t i ++ '\n' :: (pad j ++ (rbrace :: rest))) allWs_space hb.1 hnd
          simpa using this
        rw [skipWs_cons_neg (show isWs ',' = false from by decide)]
        simp only [show (',' : Char) ≠ rbrace from by decide, if_false, if_pos rfl]
        rw [show skipWs ('\n' :: (pad i ++ ('"' :: (escStr k ++ '"' :: (':' :: ' '
            :: (ser v i ++ (serObjTail t i ++ '\n' :: (pad j ++ (rbrace :: rest)))))))))
            = '"' :: (escStr k ++ '"' :: (':' :: ' ' :: (ser v i
              ++ (serObjTail t i ++ '\n' :: (pad j ++ (rbrace :: rest))))))
            from by
          rw [skipWs_cons_ws (by decide), skipWs_append_ws (allWs_pad _)]
          exact skipWs_cons_neg (by decide) _]
        simp only [if_pos rfl]
        rw [parseStrRest_esc]
        simp [skipWs_cons_neg (show isWs ':' = false from by decide), hv,
          ihOT t i j rest hb.2]

theorem ser_arr_cons (v : Json) (t : JsonList) (ind : Nat) :
    ser (Json.arr (JsonList.cons v t)) ind
      = '[' :: '\n' :: (pad (ind + 2) ++ ser v (ind + 2) ++ serArrTail t (ind + 2)
          ++ '\n' :: (pad ind ++ "]".data)) := rfl

theorem ser_obj_cons (k : Str) (v : Json) (t : JsonFields) (ind : Nat) :
    ser (Json.obj (JsonFields.cons k v t)) ind
      = lbrace :: '\n' :: (pad (ind + 2) ++ quoteStr k ++ ':' :: ' ' ::
          (ser v (ind + 2) ++ serObjTail t (ind + 2) ++ '\n' :: (pad ind ++ [rbrace]))) := rfl

theorem serArrTail_cons (v : Json) (t : JsonList) (i : Nat) :
    serArrTail (JsonList.cons v t) i
      = ',' :: '\n' :: (pad i ++ ser v i ++ serArrTail t i) := rfl

theorem serObjTail_cons (k : Str) (v : Json) (t : JsonFields) (i : Nat) :
    serObjTail (JsonFields.cons k v t) i
      = ',' :: '\n' :: (pad i ++ quoteStr k ++ ':' :: ' ' :: (ser v i ++ serObjTail t i)) := rfl

mutual
theorem costLe : ∀ (v : Json) (ind : Nat), cost v ≤ (ser v ind).length + 1
  | .null, ind => by
    have h : (ser Json.null ind).length = 4 := rfl
    have hc : cost Json.null = 1 := rfl
    omega
  | .bool true, ind => by
    have h : (ser (Json.bool true) ind).length = 4 := rfl
    have hc : cost (Json.bool true) = 1 := rfl
    omega
  | .bool false, ind => by
    have h : (ser (Json.bool false) ind).length = 5 := rfl
    have hc : cost (Json.bool false) = 1 := rfl
    omega
  | .num n, ind => by
    have h : cost (Json.num n) = 1 := rfl
    omega
  | .str s, ind => by
    have h : cost (Json.str s) = 1 := rfl
    omega
  | .arr .nil, ind => by
    have h : (ser (Json.arr JsonList.nil) ind).length = 2 := rfl
    have hc : cost (Json.arr JsonList.nil) = 2 := rfl
    omega
  | .arr (.cons v t), ind => by
    have h1 := costLe v (ind + 2)
    have h2 := costTailLe t (ind + 2)
    rw [cost_arr, costL_cons, ser_arr_cons]
    simp [List.length_append, pad]
    omega
  | .obj .nil, ind => by
    have h : (ser (Json.obj JsonFields.nil) ind).length = 2 := rfl
    have hc : cost (Json.obj JsonFields.nil) = 2 := rfl
    omega
  | .obj (.cons k v t), ind => by
    have h1 := costLe v (ind + 2)
    have h2 := costFTailLe t (ind + 2)
    rw [cost_obj, costF_cons, ser_obj_cons]
    simp [List.length_append, pad, quoteStr]
    omega

theorem costTailLe : ∀ (t : JsonList) (i : Nat), costL t ≤ (serArrTail t i).length + 1
  | .nil, i => by
    have h : (serArrTail JsonList.nil i).length = 0 := rfl
    have hc : costL JsonList.nil = 1 := rfl
    omega
  | .cons v t, i => by
    have h1 := costLe v i
    have h2 := costTailLe t i
    rw [costL_cons, serArrTail_cons]
    simp [List.length_append, pad]
    omega

theorem costFTailLe : ∀ (t : JsonFields) (i : Nat), costF t ≤ (serObjTail t i).length + 1
  | .nil, i => by
    have h : (serObjTail JsonFields.nil i).length = 0 := rfl
    have hc : costF JsonFields.nil = 1 := rfl
    omega
  | .cons k v t, i => by
    have h1 := costLe v i
    have h2 := costFTailLe t i
    rw [costF_cons, serObjTail_cons]
    simp [List.length_append, pad, quoteStr]
    omega
end

/-- The round trip at the heart of the success-path contract: parsing the
pretty-printed serialisation of any JSON value yields that value back. -/
theorem jsonParse_ser (v : Json) : jsonParse (ser v 0) = some v := by
  unfold jsonParse
  have hfu : cost v ≤ (ser v 0).length + 1 := costLe v 0
  have hmain := (rtMain ((ser v 0).length + 1)).1 v 0 [] []
    (by intro c hc; simp at hc) hfu trivial
  simp only [List.nil_append, List.append_nil] at hmain
  rw [hmain]
  simp [skipWs]

/-- One `type: "text"` content item of a reply envelope. -/
structure TextItem where
  text : Str
deriving DecidableEq

/-- The uniform reply envelope every tool returns.  The MCP SDK treats an
absent `isError` field as `false`; the source's success envelopes omit it,
which this model renders as `isError := false`. -/
structure Envelope where
  content : List TextItem
  isError : Bool
deriving DecidableEq

/-- Success envelope with a single text item. -/
def mkText (s : Str) : Envelope := { content := [⟨s⟩], isError := false }

/-- Error envelope with a single text item. -/
def mkErr (s : Str) : Envelope := { content := [⟨s⟩], isError := true }

/-- The text of a single-item envelope (empty for malformed envelopes). -/
def envText (e : Envelope) : Str :=
  match e.content with
  | [⟨s⟩] => s
  | _ => []

/-- An HTTP request as constructed by a handler.  `auth` is the value of the
`Authorization` header. -/
structure Request where
  method : Str
  url : Str
  auth : Str
  body : Option Str
deriving DecidableEq

/-- An HTTP response delivered by the transport. -/
structure HttpResponse where
  status : Nat
  statusText : Str
  body : Str
deriving DecidableEq

/-- Outcome of one `fetch`/axios call: the promise resolves to a response
(of any status) or rejects with a network error message. -/
inductive FetchOutcome where
  | ok (r : HttpResponse)
  | netError (msg : Str)
deriving DecidableEq

/-- A transport assigns an outcome to every request. -/
def Transport := Request → FetchOutcome

/-- `response.ok`: HTTP status in the 2xx range. -/
def respOk (r : HttpResponse) : Bool := 200 ≤ r.status && r.status < 300

/-- Last-occurrence member lookup, matching the object `JSON.parse` builds
(a later duplicate key overwrites an earlier one). -/
def jsGet : JsonFields → Str → Option Json
  | .nil, _ => none
  | .cons k v t, key =>
    match jsGet t key with
    | some w => some w
    | none => if k = key then some v else none

/-- JavaScript property read `data.key` on a parsed JSON value (property
reads on the primitives used by these servers yield `undefined`, i.e.
`none`; a read on `null` would throw in JS and is not exercised here). -/
def jsGetField : Json → Str → Option Json
  | .obj fs, key => jsGet fs key
  | _, _ => none

/-- JavaScript truthiness of a JSON value. -/
def jsTruthy : Json → Bool
  | .null => false
  | .bool b => b
  | .num n => decide (n ≠ 0)
  | .str s => decide (s ≠ [])
  | .arr _ => true
  | .obj _ => true

mutual
/-- `String(v)` as used by template interpolation. -/
def jsToString : Json → Str
  | .null => "null".data
  | .bool true => "true".data
  | .bool false => "false".data
  | .num n => intToChars n
  | .str s => s
  | .arr xs => jsArrJoin xs
  | .obj _ => "[object Object]".data

/-- `Array.prototype.toString`: elements joined by commas, `null` rendered
as the empty string. -/
def jsArrJoin : JsonList → Str
  | .nil => []
  | .cons v .nil => if v = .null then [] else jsToString v
  | .cons v (.cons w t) =>
    (if v = .null then [] else jsToString v) ++ ',' :: jsArrJoin (.cons w t)
end

/-- Interpolation of `data.key` into a template string: `undefined` when
the property is absent. -/
def jsFieldText (data : Json) (key : Str) : Str :=
  match jsGetField data key with
  | some v => jsToString v
  | none => "undefined".data

/-- Model constant for the engine-specific message of the `SyntaxError`
thrown by `JSON.parse` on a malformed body (the exact wording is Node
engine-specific and opaque to this repository's code). -/
def jsonParseErrMsg : Str := "Unexpected token in JSON".data

/-- Uppercase hexadecimal digit character, for `d < 16`. -/
def hexDigitUpper (d : Nat) : Char :=
  if d < 10 then digitChar d else Char.ofNat (55 + d)

/-- UTF-8 bytes of a character. -/
def utf8Bytes (c : Char) : List Nat :=
  if c.toNat < 128 then [c.toNat]
  else if c.toNat < 2048 then [192 + c.toNat / 64, 128 + c.toNat % 64]
  else if c.toNat < 65536 then
    [224 + c.toNat / 4096, 128 + (c.toNat / 64) % 64, 128 + c.toNat % 64]
  else
    [240 + c.toNat / 262144, 128 + (c.toNat / 4096) % 64, 128 + (c.toNat / 64) % 64,
      128 + c.toNat % 64]

/-- Percent-encoding of one byte, uppercase hex. -/
def pctByte (b : Nat) : Str := ['%', hexDigitUpper (b / 16), hexDigitUpper (b % 16)]

/-- Percent-encoding of a byte sequence. -/
def pctBytes : List Nat → Str
  | [] => []
  | b :: t => pctByte b ++ pctBytes t

/-- Characters `URLSearchParams` serialisation leaves unescaped
(the application/x-www-form-urlencoded set: alphanumerics and `*-._`). -/
def formSafe (c : Char) : Bool :=
  (48 ≤ c.toNat && c.toNat ≤ 57) || (65 ≤ c.toNat && c.toNat ≤ 90)
    || (97 ≤ c.toNat && c.toNat ≤ 122) || c = '*' || c = '-' || c = '.' || c = '_'

/-- `URLSearchParams` encoding of one character. -/
def formEncodeChar (c : Char) : Str :=
  if formSafe c then [c]
  else if c = ' ' then ['+']
  else pctBytes (utf8Bytes c)

/-- Character-by-character encoding of a string. -/
def encodeWith (enc : Char → Str) : Str → Str
  | [] => []
  | c :: t => enc c ++ encodeWith enc t

/-- `URLSearchParams` encoding of a value. -/
def formEncode : Str → Str := encodeWith formEncodeChar

/-- `URLSearchParams.toString()`: `k=v` pairs joined with `&`. -/
def renderQS : List (Str × Str) → Str
  | [] => []
  | [(k, v)] => formEncode k ++ '=' :: formEncode v
  | (k, v) :: r => formEncode k ++ '=' :: formEncode v ++ '&' :: renderQS r

/-- Characters `encodeURIComponent` leaves unescaped: alphanumerics and
the marks `-_.!~*'()`. -/
def uriSafe (c : Char) : Bool :=
  (48 ≤ c.toNat && c.toNat ≤ 57) || (65 ≤ c.toNat && c.toNat ≤ 90)
    || (97 ≤ c.toNat && c.toNat ≤ 122) || c = '-' || c = '_' || c = '.' || c = '!'
    || c = '~' || c = '*' || c = Char.ofNat 39 || c = '(' || c = ')'

/-- `encodeURIComponent` of one character. -/
def uriEncodeChar (c : Char) : Str :=
  if uriSafe c then [c] else pctBytes (utf8Bytes c)

/-- `encodeURIComponent`. -/
def uriEncode : Str → Str := encodeWith uriEncodeChar

/-- The axios default query-value encoding: `encodeURIComponent`, with
`:$,[]` restored and space rendered as `+`. -/
def axiosEncodeChar (c : Char) : Str :=
  if uriSafe c then [c]
  else if c = ':' || c = '$' || c = ',' || c = '[' || c = ']' then [c]
  else if c = ' ' then ['+']
  else pctBytes (utf8Bytes c)

/-- Axios encoding of a query value. -/
def axiosEncode : Str → Str := encodeWith axiosEncodeChar

/-- Axios `params` serialisation: `k=v` pairs joined with `&`. -/
def renderAxiosQS : List (Str × Str) → Str
  | [] => []
  | [(k, v)] => axiosEncode k ++ '=' :: axiosEncode v
  | (k, v) :: r => axiosEncode k ++ '=' :: axiosEncode v ++ '&' :: renderAxiosQS r

/-- A comma join, as `Array.prototype.join(',')` on strings. -/
def joinComma : List Str → Str
  | [] => []
  | [x] => x
  | x :: r => x ++ ',' :: joinComma r

/-- GoHighLevel API base URL (`GHL_API_BASE` in the source). -/
def GHL_API_BASE : Str := "https://rest.gohighlevel.com/v1".data

/-- Result of `ghlRequest`: the parsed body, or the message of the error it
threw (network rejection, JSON parse failure, or non-2xx status). -/
inductive GhlResult where
  | ok (data : Json)
  | thrown (msg : Str)
deriving DecidableEq

/-- The `data.message || response.statusText` part of the GoHighLevel
error message. -/
def ghlMsgCore (data : Json) (statusText : Str) : Str :=
  match jsGetField data "message".data with
  | some m => if jsTruthy m then jsToString m else statusText
  | none => statusText

/-- The message of the `Error` thrown by `ghlRequest` on a non-2xx
response: `GoHighLevel API error: ${data.message || response.statusText}`. -/
def ghlErrMsg (data : Json) (statusText : Str) : Str :=
  "GoHighLevel API error: ".data ++ ghlMsgCore data statusText

/-- `ghlRequest`: issues one fetch, awaits `response.json()` BEFORE checking
`response.ok`, and throws (returns `.thrown`) on rejection, parse failure,
or non-2xx status.  Returns the issued request list alongside. -/
def ghlRequest (t : Transport) (apiKey endpoint method : Str) (body : Option Str) :
    GhlResult × List Request :=
  let req : Request := { method := method, url := GHL_API_BASE ++ endpoint,
                         auth := "Bearer ".data ++ apiKey, body := body }
  match t req with
  | .netError m => (.thrown m, [req])
  | .ok r =>
    match jsonParse r.body with
    | none => (.thrown jsonParseErrMsg, [req])
    | some data =>
      if respOk r then (.ok data, [req])
      else (.thrown (ghlErrMsg data r.statusText), [req])

/-- The `URLSearchParams` pairs appended by the `getContacts` handler:
`query` only when truthy, `page`/`limit` only when non-zero (the source
guards each with a JS truthiness test). -/
def ghlGetContactsPairs (query : Option Str) (page limit : Int) : List (Str × Str) :=
  (match query with
   | some q => if q ≠ [] then [("query".data, q)] else []
   | none => []) ++
  (if page ≠ 0 then [("page".data, intToChars page)] else []) ++
  (if limit ≠ 0 then [("limit".data, intToChars limit)] else [])

/-- The endpoint string `/contacts?${queryParams.toString()}`. -/
def ghlGetContactsEndpoint (query : Option Str) (page limit : Int) : Str :=
  "/contacts?".data ++ renderQS (ghlGetContactsPairs query page limit)

/-- The `getContacts` tool handler of the GoHighLevel server. -/
def ghlGetContacts (t : Transport) (apiKey : Str) (query : Option Str) (page limit : Int) :
    Envelope × List Request :=
  match ghlRequest t apiKey (ghlGetContactsEndpoint query page limit) "GET".data none with
  | (.ok data, reqs) => (mkText (ser data 0), reqs)
  | (.thrown m, reqs) => (mkErr ("Error: ".data ++ m), reqs)

/-- The `getContact` tool handler: endpoint `/contacts/${contactId}`. -/
def ghlGetContact (t : Transport) (apiKey contactId : Str) : Envelope × List Request :=
  match ghlRequest t apiKey ("/contacts/".data ++ contactId) "GET".data none with
  | (.ok data, reqs) => (mkText (ser data 0), reqs)
  | (.thrown m, reqs) => (mkErr ("Error: ".data ++ m), reqs)

/-- The `createContact` tool handler: POSTs the validated contact object
(the schema requires email or phone to be present). -/
def ghlCreateContact (t : Transport) (apiKey : Str) (contactData : Json) :
    Envelope × List Request :=
  match ghlRequest t apiKey "/contacts".data "POST".data (some (serC contactData)) with
  | (.ok data, reqs) => (mkText (ser data 0), reqs)
  | (.thrown m, reqs) => (mkErr ("Error: ".data ++ m), reqs)

/-- Keap API base URL. -/
def keapBase : Str := "https://api.infusionsoft.com/crm/rest/v1".data

/-- The URL built by `keap-list-contacts`. -/
def keapListContactsUrl (limit : Int) (fields : List Str) : Str :=
  keapBase ++ "/contacts?limit=".data ++ intToChars limit
    ++ "&fields=".data ++ joinComma fields

/-- The `keap-list-contacts` tool handler. -/
def keapListContacts (t : Transport) (apiKey : Str) (limit : Int) (fields : List Str) :
    Envelope × List Request :=
  let req : Request := { method := "GET".data, url := keapListContactsUrl limit fields,
                         auth := "Bearer ".data ++ apiKey, body := none }
  match t req with
  | .netError m => (mkErr ("Error fetching Keap contacts: ".data ++ m), [req])
  | .ok r =>
    if respOk r then
      match jsonParse r.body with
      | some data => (mkText (ser data 0), [req])
      | none => (mkErr ("Error fetching Keap contacts: ".data ++ jsonParseErrMsg), [req])
    else
      (mkErr ("Error fetching Keap contacts: ".data ++ natToDigits r.status
        ++ ' ' :: (r.statusText ++ '\n' :: r.body)), [req])

/-- The URL built by `keap-get-contact`: the contact ID is interpolated into
the path verbatim. -/
def keapGetContactUrl (contactId : Str) (fields : List Str) : Str :=
  keapBase ++ "/contacts/".data ++ contactId ++ "?fields=".data ++ joinComma fields

/-- The `keap-get-contact` tool handler. -/
def keapGetContact (t : Transport) (apiKey contactId : Str) (fields : List Str) :
    Envelope × List Request :=
  let req : Request := { method := "GET".data, url := keapGetContactUrl contactId fields,
                         auth := "Bearer ".data ++ apiKey, body := none }
  match t req with
  | .netError m => (mkErr ("Error fetching Keap contact: ".data ++ m), [req])
  | .ok r =>
    if respOk r then
      match jsonParse r.body with
      | some data => (mkText (ser data 0), [req])
      | none => (mkErr ("Error fetching Keap contact: ".data ++ jsonParseErrMsg), [req])
    else
      (mkErr ("Error fetching Keap contact: ".data ++ natToDigits r.status
        ++ ' ' :: (r.statusText ++ '\n' :: r.body)), [req])

/-- The search parameter of `keap-search-contacts`: under the key `email`
when the query contains `@`, otherwise under `given_name`. -/
def keapSearchParam (query : Str) : Str :=
  if query.contains '@' then "email=".data ++ uriEncode query
  else "given_name=".data ++ uriEncode query

/-- The query string built by `keap-search-contacts` (everything after `?`). -/
def keapSearchQS (query : Str) (limit : Int) (fields : List Str) : Str :=
  keapSearchParam query ++ "&limit=".data ++ intToChars limit
    ++ "&fields=".data ++ joinComma fields

/-- The `keap-search-contacts` tool handler. -/
def keapSearchContacts (t : Transport) (apiKey query : Str) (limit : Int)
    (fields : List Str) : Envelope × List Request :=
  let req : Request := { method := "GET".data,
                         url := keapBase ++ "/contacts?".data ++ keapSearchQS query limit fields,
                         auth := "Bearer ".data ++ apiKey, body := none }
  match t req with
  | .netError m => (mkErr ("Error searching Keap contacts: ".data ++ m), [req])
  | .ok r =>
    if respOk r then
      match jsonParse r.body with
      | some data => (mkText (ser data 0), [req])
      | none => (mkErr ("Error searching Keap contacts: ".data ++ jsonParseErrMsg), [req])
    else
      (mkErr ("Error searching Keap contacts: ".data ++ natToDigits r.status
        ++ ' ' :: (r.statusText ++ '\n' :: r.body)), [req])

/-- The value axios assigns to `response.data`: the parsed JSON body, or the
raw body text when it is not valid JSON (the axios default
`transformResponse`). -/
def axiosData (body : Str) : Json := (jsonParse body).getD (.str body)

/-- The error value the FreshWorks handlers receive: axios attaches
`error.response` (status and transformed data) for non-2xx responses, and
only a message for network-level failures. -/
inductive AxiosError where
  | response (status : Nat) (data : Json)
  | network (msg : Str)
deriving DecidableEq

/-- `handleApiError` of the FreshWorks server. -/
def handleApiError : AxiosError → Str
  | .response status data =>
    "API Error (".data ++ natToDigits status ++ "): ".data ++ serC data
  | .network msg =>
    "Error: ".data ++ (if msg ≠ [] then msg else "Unknown error".data)

/-- Base URL of the FreshDesk API client for a subdomain. -/
def fdBase (subdomain : Str) : Str :=
  "https://".data ++ subdomain ++ ".freshdesk.com/api/v2".data

/-- The axios params of `freshdesk-list-tickets`: `page` and `per_page`
always (the inputs are defaulted), `filter` only when truthy. -/
def fdListTicketsPairs (page perPage : Int) (filter : Option Str) : List (Str × Str) :=
  [("page".data, intToChars page), ("per_page".data, intToChars perPage)] ++
    (match filter with
     | some fstr => if fstr ≠ [] then [("filter".data, fstr)] else []
     | none => [])

/-- The URL requested by `freshdesk-list-tickets`. -/
def fdListTicketsUrl (subdomain : Str) (page perPage : Int) (filter : Option Str) : Str :=
  fdBase subdomain ++ "/tickets?".data ++ renderAxiosQS (fdListTicketsPairs page perPage filter)

/-- The `freshdesk-list-tickets` tool handler. -/
def fdListTickets (t : Transport) (apiKey subdomain : Str) (page perPage : Int)
    (filter : Option Str) : Envelope × List Request :=
  let req : Request := { method := "GET".data,
                         url := fdListTicketsUrl subdomain page perPage filter,
                         auth := "Bearer ".data ++ apiKey, body := none }
  match t req with
  | .netError m => (mkErr (handleApiError (.network m)), [req])
  | .ok r =>
    if respOk r then (mkText (ser (axiosData r.body) 0), [req])
    else (mkErr (handleApiError (.response r.status (axiosData r.body))), [req])

/-- A JSON array of strings. -/
def strsToJson : List Str → JsonList
  | [] => .nil
  | s :: r => .cons (.str s) (strsToJson r)

/-- The JSON body of `freshdesk-create-ticket`.  The source places `tags`
in the payload unconditionally; when the optional input is absent its value
is `undefined` and `JSON.stringify` drops the property, which this model
renders by omitting the member. -/
def fdCreateTicketPayload (subject description email : Str) (priority status : Int)
    (tags : Option (List Str)) : Json :=
  .obj (.cons "subject".data (.str subject)
    (.cons "description".data (.str description)
      (.cons "email".data (.str email)
        (.cons "priority".data (.num priority)
          (.cons "status".data (.num status)
            (match tags with
             | some ts => .cons "tags".data (.arr (strsToJson ts)) .nil
             | none => .nil))))))

/-- The `freshdesk-create-ticket` tool handler. -/
def fdCreateTicket (t : Transport) (apiKey subdomain subject description email : Str)
    (priority status : Int) (tags : Option (List Str)) : Envelope × List Request :=
  let payload := fdCreateTicketPayload subject description email priority status tags
  let req : Request := { method := "POST".data, url := fdBase subdomain ++ "/tickets".data,
                         auth := "Bearer ".data ++ apiKey, body := some (serC payload) }
  match t req with
  | .netError m => (mkErr (handleApiError (.network m)), [req])
  | .ok r =>
    if respOk r then
      (mkText ("Ticket created successfully with ID: ".data
        ++ jsFieldText (axiosData r.body) "id".data
        ++ "\n\n".data ++ ser (axiosData r.body) 0), [req])
    else (mkErr (handleApiError (.response r.status (axiosData r.body))), [req])

/-- Add an optional string member under `key` when the input is truthy
(the source's `if (x) payload.k = x` pattern). -/
def optField (key : Str) (v : Option Str) (rest : JsonFields) : JsonFields :=
  match v with
  | some s => if s ≠ [] then .cons key (.str s) rest else rest
  | none => rest

/-- The JSON body of `freshdesk-create-contact`: `name` and `email` always,
then each optional field only when truthy, then the company block. -/
def fdCreateContactPayload (name email : Str)
    (phone mobilePhone twitterId companyName description : Option Str) : Json :=
  .obj (.cons "name".data (.str name)
    (.cons "email".data (.str email)
      (optField "phone".data phone
        (optField "mobile".data mobilePhone
          (optField "twitter_id".data twitterId
            (optField "description".data description
              (match companyName with
               | some cn =>
                 if cn ≠ [] then
                   .cons "company_id".data .null
                     (.cons "other_companies".data
                       (.arr (.cons (.obj (.cons "name".data (.str cn) .nil)) .nil)) .nil)
                 else .nil
               | none => .nil)))))))

/-- The `freshdesk-create-contact` tool handler. -/
def fdCreateContact (t : Transport) (apiKey subdomain name email : Str)
    (phone mobilePhone twitterId companyName description : Option Str) :
    Envelope × List Request :=
  let payload := fdCreateContactPayload name email phone mobilePhone twitterId
    companyName description
  let req : Request := { method := "POST".data, url := fdBase subdomain ++ "/contacts".data,
                         auth := "Bearer ".data ++ apiKey, body := some (serC payload) }
  match t req with
  | .netError m => (mkErr (handleApiError (.network m)), [req])
  | .ok r =>
    if respOk r then
      (mkText ("Contact created successfully with ID: ".data
        ++ jsFieldText (axiosData r.body) "id".data
        ++ "\n\n".data ++ ser (axiosData r.body) 0), [req])
    else (mkErr (handleApiError (.response r.status (axiosData r.body))), [req])

/-- The `properties=...` query fragment of `hubspot-list-contacts`:
each property percent-encoded, fragments joined with `&`. -/
def hsPropsQuery : List Str → Str
  | [] => []
  | [p] => "properties=".data ++ uriEncode p
  | p :: r => "properties=".data ++ uriEncode p ++ '&' :: hsPropsQuery r

/-- The URL requested by `hubspot-list-contacts`. -/
def hubspotListContactsUrl (limit : Int) (properties : List Str) : Str :=
  "https://api.hubapi.com/crm/v3/objects/contacts?limit=".data ++ intToChars limit
    ++ '&' :: hsPropsQuery properties

/-- The `hubspot-list-contacts` tool handler. -/
def hubspotListContacts (t : Transport) (apiKey : Str) (limit : Int)
    (properties : List Str) : Envelope × List Request :=
  let req : Request := { method := "GET".data, url := hubspotListContactsUrl limit properties,
                         auth := "Bearer ".data ++ apiKey, body := none }
  match t req with
  | .netError m => (mkErr ("Error fetching Hubspot contacts: ".data ++ m), [req])
  | .ok r =>
    if respOk r then
      match jsonParse r.body with
      | some data => (mkText (ser data 0), [req])
      | none => (mkErr ("Error fetching Hubspot contacts: ".data ++ jsonParseErrMsg), [req])
    else
      (mkErr ("Error fetching Hubspot contacts: ".data ++ natToDigits r.status
        ++ ' ' :: (r.statusText ++ '\n' :: r.body)), [req])

/-- Outcome of a Pipedrive SDK call: the promise resolves with a response
whose `.data` field the handler serialises, or rejects with an error. -/
inductive PdOutcome where
  | resolve (data : Json)
  | reject (msg : Str)
deriving DecidableEq

/-- The `getAllPersons` tool handler of the Pipedrive server; the returned
number counts the SDK calls issued. -/
def pdGetAllPersons (api : Unit → PdOutcome) : Envelope × Nat :=
  match api () with
  | .resolve data => (mkText (ser data 0), 1)
  | .reject m => (mkErr ("Error fetching persons: ".data ++ m), 1)

theorem prefix_stop_sep {t u w : Str} {sep : Char} (hsep : sep ∉ t)
    (h : t <+: u ++ sep :: w) : t <+: u := by
  induction t generalizing u with
  | nil => exact List.nil_prefix
  | cons c t ih =>
    cases u with
    | nil =>
      obtain ⟨rfl, -⟩ := List.cons_prefix_cons.1 h
      exact absurd (List.mem_cons_self _ _) hsep
    | cons x u =>
      obtain ⟨rfl, htail⟩ := List.cons_prefix_cons.1 h
      have hsep' : sep ∉ t := fun hm => hsep (List.mem_cons_of_mem _ hm)
      exact List.cons_prefix_cons.2 ⟨rfl, ih hsep' htail⟩

theorem prefix_drop_right {t u w : Str} (hw : ∀ c ∈ t, c ∉ w) (h : t <+: u ++ w) :
    t <+: u := by
  induction t generalizing u with
  | nil => exact List.nil_prefix
  | cons c t ih =>
    cases u with
    | nil =>
      exfalso
      exact hw c (List.mem_cons_self _ _) (h.subset (List.mem_cons_self _ _))
    | cons x u =>
      obtain ⟨rfl, htail⟩ := List.cons_prefix_cons.1 h
      have hw' : ∀ b ∈ t, b ∉ w := fun b hb => hw b (List.mem_cons_of_mem _ hb)
      exact List.cons_prefix_cons.2 ⟨rfl, ih hw' htail⟩

theorem infix_split_sep {t a b : Str} {sep : Char} (hsep : sep ∉ t)
    (h : t <:+: a ++ sep :: b) : t <:+: a ∨ t <:+: b := by
  induction a with
  | nil =>
    rcases List.infix_cons_iff.1 h with hp | hi
    · cases t with
      | nil => exact Or.inl (List.nil_infix)
      | cons c t' =>
        obtain ⟨rfl, -⟩ := List.cons_prefix_cons.1 hp
        exact absurd (List.mem_cons_self _ _) hsep
    · exact Or.inr hi
  | cons x a ih =>
    rcases List.infix_cons_iff.1 h with hp | hi
    · exact Or.inl (prefix_stop_sep hsep (by simpa using hp)).isInfix
    · rcases ih hi with h1 | h1
      · exact Or.inl (List.infix_cons h1)
      · exact Or.inr h1

theorem infix_drop_left {t a b : Str} (ha : ∀ c ∈ t, c ∉ a) (h : t <:+: a ++ b) :
    t <:+: b := by
  induction a with
  | nil => simpa using h
  | cons x a ih =>
    rcases List.infix_cons_iff.1 h with hp | hi
    · cases t with
      | nil => exact List.nil_infix
      | cons c t' =>
        obtain ⟨rfl, -⟩ := List.cons_prefix_cons.1 hp
        exact absurd (List.mem_cons_self _ _) (ha _ (List.mem_cons_self _ _))
    · exact ih (fun c hc hm => ha c hc (List.mem_cons_of_mem _ hm)) hi

theorem infix_drop_right {t a b : Str} (hb : ∀ c ∈ t, c ∉ b) (h : t <:+: a ++ b) :
    t <:+: a := by
  induction a with
  | nil =>
    cases t with
    | nil => exact List.nil_infix
    | cons c t' =>
      exfalso
      exact hb c (List.mem_cons_self _ _) (h.subset (by simp))
  | cons x a ih =>
    rcases List.infix_cons_iff.1 h with hp | hi
    · exact (prefix_drop_right hb (by simp at hp ⊢; exact hp)).isInfix
    · exact List.infix_cons (ih hi)

/-- Lowercase ASCII letter test. -/
def isLowerAlpha (c : Char) : Bool := 97 ≤ c.toNat && c.toNat ≤ 122

theorem char_toNat_lt (c : Char) : c.toNat < 1114112 := by
  have h : c.toNat < 55296 ∨ (57343 < c.toNat ∧ c.toNat < 1114112) := c.valid
  omega

theorem utf8Bytes_lt (c : Char) : ∀ b ∈ utf8Bytes c, b < 256 := by
  intro b hb
  have hvalid := char_toNat_lt c
  unfold utf8Bytes at hb
  split at hb
  · simp at hb; omega
  · split at hb
    · simp at hb
      rcases hb with rfl | rfl <;> omega
    · split at hb
      · simp at hb
        rcases hb with rfl | rfl | rfl <;> omega
      · simp at hb
        rcases hb with rfl | rfl | rfl | rfl <;> omega

theorem hexUpper_notLower {d : Nat} (h : d < 16) : isLowerAlpha (hexDigitUpper d) = false := by
  unfold hexDigitUpper digitChar
  interval_cases d <;> decide

theorem utf8Bytes_ne_nil (c : Char) : utf8Bytes c ≠ [] := by
  unfold utf8Bytes
  split
  · simp
  · split
    · simp
    · split <;> simp

theorem pct_mem {bs : List Nat} (hb : ∀ b ∈ bs, b < 256) :
    ∀ x ∈ pctBytes bs, x = '%' ∨ ∃ d, d < 16 ∧ x = hexDigitUpper d := by
  induction bs with
  | nil => simp [pctBytes]
  | cons b t ih =>
    intro x hx
    have hb0 : b < 256 := hb b (by simp)
    simp only [pctBytes, pctByte, List.cons_append, List.mem_cons] at hx
    rcases hx with rfl | hx2
    · exact Or.inl rfl
    · rcases hx2 with rfl | hx3
      · exact Or.inr ⟨b / 16, by omega, rfl⟩
      · rcases hx3 with rfl | hx4
        · exact Or.inr ⟨b % 16, Nat.mod_lt _ (by omega), rfl⟩
        · simp only [List.nil_append] at hx4
          exact ih (fun b2 h2 => hb b2 (by simp [h2])) x hx4

theorem pctBytes_notLower {bs : List Nat} (hb : ∀ b ∈ bs, b < 256) :
    ∀ x ∈ pctBytes bs, isLowerAlpha x = false := by
  intro x hx
  rcases pct_mem hb x hx with rfl | ⟨d, hd, rfl⟩
  · decide
  · exact hexUpper_notLower hd

theorem pctBytes_ne_nil {bs : List Nat} (h : bs ≠ []) : pctBytes bs ≠ [] := by
  cases bs with
  | nil => exact absurd rfl h
  | cons b t => simp [pctBytes, pctByte]

theorem encodeWith_chars (enc : Char → Str) :
    ∀ (s : Str) (x : Char), x ∈ encodeWith enc s → ∃ c ∈ s, x ∈ enc c := by
  intro s
  induction s with
  | nil => intro x hx; simp [encodeWith] at hx
  | cons c r ih =>
    intro x hx
    rw [show encodeWith enc (c :: r) = enc c ++ encodeWith enc r from rfl] at hx
    rcases List.mem_append.1 hx with h1 | h1
    · exact ⟨c, by simp, h1⟩
    · obtain ⟨c2, hc2, hm⟩ := ih x h1
      exact ⟨c2, by simp [hc2], hm⟩

theorem encodeWith_safe {enc : Char → Str} :
    ∀ {s : Str}, (∀ c ∈ s, enc c = [c]) → encodeWith enc s = s := by
  intro s
  induction s with
  | nil => intro _; rfl
  | cons c r ih =>
    intro h
    rw [show encodeWith enc (c :: r) = enc c ++ encodeWith enc r from rfl,
      h c (by simp), ih (fun x hx => h x (by simp [hx]))]
    rfl

theorem prefix_encodeWith (enc : Char → Str)
    (henc : ∀ c, enc c = [c] ∨ (enc c ≠ [] ∧ ∀ x ∈ enc c, isLowerAlpha x = false)) :
    ∀ (s t : Str), (∀ c ∈ t, isLowerAlpha c = true) → t <+: encodeWith enc s → t <+: s := by
  intro s
  induction s with
  | nil => intro t _ h; exact h
  | cons c r ih =>
    intro t ht h
    rw [show encodeWith enc (c :: r) = enc c ++ encodeWith enc r from rfl] at h
    rcases henc c with hc | ⟨hne, hlow⟩
    · rw [hc] at h
      cases t with
      | nil => exact List.nil_prefix
      | cons x t' =>
        obtain ⟨rfl, htail⟩ := List.cons_prefix_cons.1 h
        exact List.cons_prefix_cons.2
          ⟨rfl, ih t' (fun a ha => ht a (by simp [ha])) htail⟩
    · cases t with
      | nil => exact List.nil_prefix
      | cons x t' =>
        exfalso
        obtain ⟨e, es, he⟩ := List.exists_cons_of_ne_nil hne
        rw [he] at h hlow
        obtain ⟨rfl, -⟩ := List.cons_prefix_cons.1 (by simpa using h)
        have h1 : isLowerAlpha x = true := ht x (by simp)
        have h2 : isLowerAlpha x = false := hlow x (by simp)
        rw [h1] at h2
        exact Bool.noConfusion h2

theorem infix_encodeWith (enc : Char → Str)
    (henc : ∀ c, enc c = [c] ∨ (enc c ≠ [] ∧ ∀ x ∈ enc c, isLowerAlpha x = false)) :
    ∀ (s t : Str), (∀ c ∈ t, isLowerAlpha c = true) → t <:+: encodeWith enc s → t <:+: s := by
  intro s
  induction s with
  | nil => intro t _ h; exact h
  | cons c r ih =>
    intro t ht h
    rw [show encodeWith enc (c :: r) = enc c ++ encodeWith enc r from rfl] at h
    rcases henc c with hc | ⟨hne, hlow⟩
    · rw [hc] at h
      rcases List.infix_cons_iff.1 h with hp | hi
      · refine (prefix_encodeWith enc henc (c :: r) t ht ?_).isInfix
        rw [show encodeWith enc (c :: r) = enc c ++ encodeWith enc r from rfl, hc]
        exact hp
      · exact List.infix_cons (ih t ht hi)
    · have hdrop : t <:+: encodeWith enc r := by
        refine infix_drop_left (fun x hx hmem => ?_) h
        have h1 : isLowerAlpha x = true := ht x hx
        have h2 : isLowerAlpha x = false := hlow x hmem
        rw [h1] at h2
        exact Bool.noConfusion h2
      exact List.infix_cons (ih t ht hdrop)

theorem henc_form : ∀ c, formEncodeChar c = [c]
    ∨ (formEncodeChar c ≠ [] ∧ ∀ x ∈ formEncodeChar c, isLowerAlpha x = false) := by
  intro c
  by_cases h1 : formSafe c
  · left; simp [formEncodeChar, h1]
  · by_cases h2 : c = ' '
    · right; subst h2; exact ⟨by decide, by decide⟩
    · right
      have hx : formEncodeChar c = pctBytes (utf8Bytes c) := by simp [formEncodeChar, h1, h2]
      rw [hx]
      exact ⟨pctBytes_ne_nil (utf8Bytes_ne_nil c), pctBytes_notLower (utf8Bytes_lt c)⟩

theorem henc_uri : ∀ c, uriEncodeChar c = [c]
    ∨ (uriEncodeChar c ≠ [] ∧ ∀ x ∈ uriEncodeChar c, isLowerAlpha x = false) := by
  intro c
  by_cases h1 : uriSafe c
  · left; simp [uriEncodeChar, h1]
  · right
    have hx : uriEncodeChar c = pctBytes (utf8Bytes c) := by simp [uriEncodeChar, h1]
    rw [hx]
    exact ⟨pctBytes_ne_nil (utf8Bytes_ne_nil c), pctBytes_notLower (utf8Bytes_lt c)⟩

theorem henc_axios : ∀ c, axiosEncodeChar c = [c]
    ∨ (axiosEncodeChar c ≠ [] ∧ ∀ x ∈ axiosEncodeChar c, isLowerAlpha x = false) := by
  intro c
  by_cases h1 : uriSafe c
  · left; simp [axiosEncodeChar, h1]
  · by_cases hc1 : c = ':'
    · left; subst hc1; decide
    · by_cases hc2 : c = '$'
      · left; subst hc2; decide
      · by_cases hc3 : c = ','
        · left; subst hc3; decide
        · by_cases hc4 : c = '['
          · left; subst hc4; decide
          · by_cases hc5 : c = ']'
            · left; subst hc5; decide
            · by_cases h3 : c = ' '
              · right; subst h3; exact ⟨by decide, by decide⟩
              · right
                have hx : axiosEncodeChar c = pctBytes (utf8Bytes c) := by
                  simp [axiosEncodeChar, h1, hc1, hc2, hc3, hc4, hc5, h3]
                rw [hx]
                exact ⟨pctBytes_ne_nil (utf8Bytes_ne_nil c),
                  pctBytes_notLower (utf8Bytes_lt c)⟩

theorem notin_pctBytes {x : Char} (hxp : x ≠ '%')
    (hxh : ∀ d, d < 16 → hexDigitUpper d ≠ x)
    {bs : List Nat} (hb : ∀ b ∈ bs, b < 256) : x ∉ pctBytes bs := by
  intro hm
  rcases pct_mem hb x hm with heq | ⟨d, hd, heq⟩
  · exact hxp heq
  · exact hxh d hd heq.symm

theorem hexUpper_ne_amp : ∀ d, d < 16 → hexDigitUpper d ≠ '&' := by
  intro d h
  unfold hexDigitUpper digitChar
  interval_cases d <;> decide

theorem hexUpper_ne_eqc : ∀ d, d < 16 → hexDigitUpper d ≠ '=' := by
  intro d h
  unfold hexDigitUpper digitChar
  interval_cases d <;> decide

theorem notin_encodeWith {enc : Char → Str} {x : Char}
    (h : ∀ c, x ∉ enc c) (v : Str) : x ∉ encodeWith enc v := by
  intro hm
  obtain ⟨c, -, hmem⟩ := encodeWith_chars enc v x hm
  exact h c hmem

theorem notin_formEncodeChar {x : Char} (h1 : formSafe x = false) (h2 : x ≠ '+')
    (h3 : x ≠ '%') (h4 : ∀ d, d < 16 → hexDigitUpper d ≠ x) :
    ∀ c, x ∉ formEncodeChar c := by
  intro c hm
  unfold formEncodeChar at hm
  split at hm
  · next hsafe =>
    simp at hm
    subst hm
    rw [h1] at hsafe
    exact Bool.noConfusion hsafe
  · split at hm
    · simp at hm; exact h2 hm
    · exact notin_pctBytes h3 h4 (utf8Bytes_lt c) hm

theorem notin_uriEncodeChar {x : Char} (h1 : uriSafe x = false)
    (h3 : x ≠ '%') (h4 : ∀ d, d < 16 → hexDigitUpper d ≠ x) :
    ∀ c, x ∉ uriEncodeChar c := by
  intro c hm
  unfold uriEncodeChar at hm
  split at hm
  · next hsafe =>
    simp at hm
    subst hm
    rw [h1] at hsafe
    exact Bool.noConfusion hsafe
  · exact notin_pctBytes h3 h4 (utf8Bytes_lt c) hm

theorem notin_axiosEncodeChar {x : Char} (h1 : uriSafe x = false)
    (h0 : (x = ':' || x = '$' || x = ',' || x = '[' || x = ']') = false)
    (h2 : x ≠ '+') (h3 : x ≠ '%') (h4 : ∀ d, d < 16 → hexDigitUpper d ≠ x) :
    ∀ c, x ∉ axiosEncodeChar c := by
  intro c hm
  unfold axiosEncodeChar at hm
  split at hm
  · next hsafe =>
    simp at hm
    subst hm
    rw [h1] at hsafe
    exact Bool.noConfusion hsafe
  · split at hm
    · next hcond =>
      simp at hm
      subst hm
      rw [h0] at hcond
      exact Bool.noConfusion hcond
    · split at hm
      · simp at hm; exact h2 hm
      · exact notin_pctBytes h3 h4 (utf8Bytes_lt c) hm

theorem amp_notin_formEncode (v : Str) : '&' ∉ formEncode v :=
  notin_encodeWith (notin_formEncodeChar (by decide) (by decide) (by decide) hexUpper_ne_amp) v

theorem eqc_notin_formEncode (v : Str) : '=' ∉ formEncode v :=
  notin_encodeWith (notin_formEncodeChar (by decide) (by decide) (by decide) hexUpper_ne_eqc) v

theorem amp_notin_uriEncode (v : Str) : '&' ∉ uriEncode v :=
  notin_encodeWith (notin_uriEncodeChar (by decide) (by decide) hexUpper_ne_amp) v

theorem eqc_notin_uriEncode (v : Str) : '=' ∉ uriEncode v :=
  notin_encodeWith (notin_uriEncodeChar (by decide) (by decide) hexUpper_ne_eqc) v

theorem amp_notin_axiosEncode (v : Str) : '&' ∉ axiosEncode v :=
  notin_encodeWith
    (notin_axiosEncodeChar (by decide) (by decide) (by decide) (by decide) hexUpper_ne_amp) v

theorem eqc_notin_axiosEncode (v : Str) : '=' ∉ axiosEncode v :=
  notin_encodeWith
    (notin_axiosEncodeChar (by decide) (by decide) (by decide) (by decide) hexUpper_ne_eqc) v

/-- Split a string at every occurrence of a separator character (the
standard query-string decomposition on `&` and `=`). -/
def splitOnCharL (sep : Char) : Str → List Str
  | [] => [[]]
  | c :: r =>
    if c = sep then [] :: splitOnCharL sep r
    else
      match splitOnCharL sep r with
      | s :: tail => (c :: s) :: tail
      | [] => [[c]]

theorem splitOnCharL_ne_nil (sep : Char) (s : Str) : splitOnCharL sep s ≠ [] := by
  cases s with
  | nil => simp [splitOnCharL]
  | cons c r =>
    unfold splitOnCharL
    split
    · simp
    · split <;> simp

theorem splitOnCharL_nosep {sep : Char} {s : Str} (h : ∀ c ∈ s, c ≠ sep) :
    splitOnCharL sep s = [s] := by
  induction s with
  | nil => rfl
  | cons c r ih =>
    unfold splitOnCharL
    rw [if_neg (h c (by simp)), ih (fun x hx => h x (by simp [hx]))]

theorem splitOnCharL_append {sep : Char} {a b : Str} (h : ∀ c ∈ a, c ≠ sep) :
    splitOnCharL sep (a ++ sep :: b) = a :: splitOnCharL sep b := by
  induction a with
  | nil => simp [splitOnCharL]
  | cons c a' ih =>
    rw [List.cons_append]
    rw [show splitOnCharL sep (c :: (a' ++ sep :: b))
        = if c = sep then [] :: splitOnCharL sep (a' ++ sep :: b)
          else
            match splitOnCharL sep (a' ++ sep :: b) with
            | s :: tail => (c :: s) :: tail
            | [] => [[c]] from rfl]
    rw [if_neg (h c (by simp)), ih (fun x hx => h x (by simp [hx]))]

/-- Standard query-string decomposition: segments split on `&`, each
divided at its first `=` into key and value (empty string: no pairs). -/
def qsPairs (s : Str) : List (Str × Str) :=
  if s = [] then []
  else (splitOnCharL '&' s).map
    (fun seg => (seg.takeWhile (fun c => c != '='),
      (seg.dropWhile (fun c => c != '=')).tail))

/-- The keys of a query string, in order. -/
def qsKeys (s : Str) : List Str := (qsPairs s).map Prod.fst

theorem seg_split {k v : Str} (hk : '=' ∉ k) :
    (k ++ '=' :: v).takeWhile (fun c => c != '=') = k
      ∧ ((k ++ '=' :: v).dropWhile (fun c => c != '=')).tail = v := by
  have h1 : ∀ c ∈ k, (c != '=') = true := by
    intro c hc
    simp only [bne_iff_ne, ne_eq, decide_eq_true_eq]
    intro h
    subst h
    exact hk hc
  have h2 : headNot (fun c => c != '=') ('=' :: v) := by
    simp [headNot]
  obtain ⟨ht, hd⟩ := takeWhile_all_append h1 h2
  exact ⟨ht, by rw [hd]; rfl⟩

theorem renderQS_ne_nil {ps : List (Str × Str)} (h : ps ≠ []) : renderQS ps ≠ [] := by
  cases ps with
  | nil => exact absurd rfl h
  | cons p r =>
    cases r with
    | nil => obtain ⟨k, v⟩ := p; simp [renderQS]
    | cons p2 r2 => obtain ⟨k, v⟩ := p; simp [renderQS]

theorem formSafe_notAmp {k : Str} (h : ∀ c ∈ k, formSafe c = true) : ∀ c ∈ k, c ≠ '&' := by
  intro c hc heq
  subst heq
  have := h _ hc
  exact absurd this (by decide)

theorem formSafe_notEq {k : Str} (h : ∀ c ∈ k, formSafe c = true) : '=' ∉ k := by
  intro hm
  have := h _ hm
  exact absurd this (by decide)

theorem formEncode_safe {k : Str} (h : ∀ c ∈ k, formSafe c = true) : formEncode k = k :=
  encodeWith_safe (fun c hc => by simp [formEncodeChar, h c hc])

theorem qsPairs_renderQS :
    ∀ (ps : List (Str × Str)), ps ≠ [] →
      (∀ p ∈ ps, ∀ c ∈ p.1, formSafe c = true) →
      qsPairs (renderQS ps) = ps.map (fun p => (p.1, formEncode p.2)) := by
  intro ps
  induction ps with
  | nil => intro h; exact absurd rfl h
  | cons p r ih =>
    intro _ hk
    obtain ⟨k, v⟩ := p
    have hks : ∀ c ∈ k, formSafe c = true := hk (k, v) (by simp)
    have hsegAmp : ∀ c ∈ k ++ '=' :: formEncode v, c ≠ '&' := by
      intro c hc
      rcases List.mem_append.1 hc with h1 | h1
      · exact formSafe_notAmp hks c h1
      · rcases List.mem_cons.1 h1 with rfl | h1
        · decide
        · intro he; subst he; exact amp_notin_formEncode v h1
    cases r with
    | nil =>
      rw [show renderQS [(k, v)] = formEncode k ++ '=' :: formEncode v from rfl,
        formEncode_safe hks]
      unfold qsPairs
      rw [if_neg (by simp), splitOnCharL_nosep hsegAmp]
      obtain ⟨h1, h2⟩ := seg_split (v := formEncode v) (formSafe_notEq hks)
      simp [h1, h2]
    | cons p2 r2 =>
      rw [show renderQS ((k, v) :: p2 :: r2)
          = formEncode k ++ '=' :: formEncode v ++ '&' :: renderQS (p2 :: r2) from rfl,
        formEncode_safe hks]
      have hstep := ih (by simp) (fun q hq => hk q (by simp [hq]))
      unfold qsPairs at hstep ⊢
      rw [if_neg (renderQS_ne_nil (by simp))] at hstep
      rw [if_neg (by simp)]
      rw [show k ++ '=' :: formEncode v ++ '&' :: renderQS (p2 :: r2)
          = (k ++ '=' :: formEncode v) ++ '&' :: renderQS (p2 :: r2) from by simp]
      rw [splitOnCharL_append hsegAmp]
      obtain ⟨h1, h2⟩ := seg_split (v := formEncode v) (formSafe_notEq hks)
      simp [h1, h2, hstep]

theorem renderAxiosQS_ne_nil {ps : List (Str × Str)} (h : ps ≠ []) : renderAxiosQS ps ≠ [] := by
  cases ps with
  | nil => exact absurd rfl h
  | cons p r =>
    cases r with
    | nil => obtain ⟨k, v⟩ := p; simp [renderAxiosQS]
    | cons p2 r2 => obtain ⟨k, v⟩ := p; simp [renderAxiosQS]

theorem uriSafe_notAmp {k : Str} (h : ∀ c ∈ k, uriSafe c = true) : ∀ c ∈ k, c ≠ '&' := by
  intro c hc heq
  subst heq
  exact absurd (h _ hc) (by decide)

theorem uriSafe_notEq {k : Str} (h : ∀ c ∈ k, uriSafe c = true) : '=' ∉ k := by
  intro hm
  exact absurd (h _ hm) (by decide)

theorem axiosEncode_safe {k : Str} (h : ∀ c ∈ k, uriSafe c = true) : axiosEncode k = k :=
  encodeWith_safe (fun c hc => by simp [axiosEncodeChar, h c hc])

theorem qsPairs_renderAxiosQS :
    ∀ (ps : List (Str × Str)), ps ≠ [] →
      (∀ p ∈ ps, ∀ c ∈ p.1, uriSafe c = true) →
      qsPairs (renderAxiosQS ps) = ps.map (fun p => (p.1, axiosEncode p.2)) := by
  intro ps
  induction ps with
  | nil => intro h; exact absurd rfl h
  | cons p r ih =>
    intro _ hk
    obtain ⟨k, v⟩ := p
    have hks : ∀ c ∈ k, uriSafe c = true := hk (k, v) (by simp)
    have hsegAmp : ∀ c ∈ k ++ '=' :: axiosEncode v, c ≠ '&' := by
      intro c hc
      rcases List.mem_append.1 hc with h1 | h1
      · exact uriSafe_notAmp hks c h1
      · rcases List.mem_cons.1 h1 with rfl | h1
        · decide
        · intro he; subst he; exact amp_notin_axiosEncode v h1
    cases r with
    | nil =>
      rw [show renderAxiosQS [(k, v)] = axiosEncode k ++ '=' :: axiosEncode v from rfl,
        axiosEncode_safe hks]
      unfold qsPairs
      rw [if_neg (by simp), splitOnCharL_nosep hsegAmp]
      obtain ⟨h1, h2⟩ := seg_split (v := axiosEncode v) (uriSafe_notEq hks)
      simp [h1, h2]
    | cons p2 r2 =>
      rw [show renderAxiosQS ((k, v) :: p2 :: r2)
          = axiosEncode k ++ '=' :: axiosEncode v ++ '&' :: renderAxiosQS (p2 :: r2) from rfl,
        axiosEncode_safe hks]
      have hstep := ih (by simp) (fun q hq => hk q (by simp [hq]))
      unfold qsPairs at hstep ⊢
      rw [if_neg (renderAxiosQS_ne_nil (by simp))] at hstep
      rw [if_neg (by simp)]
      rw [show k ++ '=' :: axiosEncode v ++ '&' :: renderAxiosQS (p2 :: r2)
          = (k ++ '=' :: axiosEncode v) ++ '&' :: renderAxiosQS (p2 :: r2) from by simp]
      rw [splitOnCharL_append hsegAmp]
      obtain ⟨h1, h2⟩ := seg_split (v := axiosEncode v) (uriSafe_notEq hks)
      simp [h1, h2, hstep]

theorem intToChars_chars (i : Int) : ∀ c ∈ intToChars i, isDigitC c = true ∨ c = '-' := by
  intro c hc
  unfold intToChars at hc
  split at hc
  · rcases List.mem_cons.1 hc with rfl | h1
    · exact Or.inr rfl
    · exact Or.inl (natToDigits_digits _ c h1)
  · exact Or.inl (natToDigits_digits _ c hc)

theorem undef_not_in_int (i : Int) : ¬ ("undefined".data <:+: intToChars i) := by
  intro h
  have hu : 'u' ∈ intToChars i := h.subset (by decide)
  rcases intToChars_chars i 'u' hu with h1 | h1
  · exact absurd h1 (by decide)
  · exact absurd h1 (by decide)

theorem infix_joinComma {t : Str} (hne : t ≠ []) (hc : ',' ∉ t) :
    ∀ {ls : List Str}, t <:+: joinComma ls → ∃ x ∈ ls, t <:+: x := by
  intro ls
  induction ls with
  | nil =>
    intro h
    exact absurd (List.eq_nil_of_infix_nil h) hne
  | cons x r ih =>
    intro h
    cases r with
    | nil => exact ⟨x, by simp, h⟩
    | cons y r2 =>
      rw [show joinComma (x :: y :: r2) = x ++ ',' :: joinComma (y :: r2) from rfl] at h
      rcases infix_split_sep hc h with h1 | h1
      · exact ⟨x, by simp, h1⟩
      · obtain ⟨z, hz, hzz⟩ := ih h1
        exact ⟨z, by simp [hz], hzz⟩

theorem notin_joinComma {x : Char} (hx : x ≠ ',') :
    ∀ {ls : List Str}, (∀ s ∈ ls, x ∉ s) → x ∉ joinComma ls := by
  intro ls
  induction ls with
  | nil => intro _; simp [joinComma]
  | cons s r ih =>
    intro h hm
    cases r with
    | nil => exact h s (by simp) hm
    | cons y r2 =>
      rw [show joinComma (s :: y :: r2) = s ++ ',' :: joinComma (y :: r2) from rfl] at hm
      rcases List.mem_append.1 hm with h1 | h1
      · exact h s (by simp) h1
      · rcases List.mem_cons.1 h1 with rfl | h1
        · exact hx rfl
        · exact ih (fun q hq => h q (by simp [hq])) h1

/-- The first line of a text (up to the first newline). -/
def firstLine (s : Str) : Str := s.takeWhile (fun c => c != '\n')

/-- Concatenation of JSON member lists. -/
def appendFields : JsonFields → JsonFields → JsonFields
  | .nil, g => g
  | .cons k v t, g => .cons k v (appendFields t g)

/-- A fake backend that echoes the posted JSON body augmented with
`id: "c1"`, used for the create-contact scenario. -/
def echoC1 : Transport := fun req =>
  match req.body with
  | some b =>
    match jsonParse b with
    | some (.obj fs) =>
      .ok ⟨200, "OK".data,
        serC (.obj (appendFields fs (.cons "id".data (.str "c1".data) .nil)))⟩
    | _ => .ok ⟨400, "Bad Request".data, "\x7b\x7d".data⟩
  | none => .ok ⟨400, "Bad Request".data, "\x7b\x7d".data⟩

/-- A fault of a `fetch`-based handler: the call rejects, the status is not
2xx, or the body fails to parse as JSON. -/
def isFaultFetch : FetchOutcome → Prop
  | .netError _ => True
  | .ok r => respOk r = false ∨ jsonParse r.body = none

/-- A fault of an axios-based handler: the call rejects at network level or
the status is not 2xx (axios tolerates non-JSON bodies on success). -/
def isFaultAxios : FetchOutcome → Prop
  | .netError _ => True
  | .ok r => respOk r = false

/-- C1: every modelled tool handler, in every server, converts every fault
arising during its execution — a rejected HTTP call, a non-2xx response,
or (for the fetch-based servers) a JSON parse failure — into a well-formed
single-item envelope with `isError = true`.  The handlers are total
functions into `Envelope`, so no exception can pass the tool boundary to
the transport shell. -/
theorem C1_fault_envelopes :
    (∀ (o : FetchOutcome) (k : Str) (qo : Option Str) (pg lim : Int), isFaultFetch o →
      (ghlGetContacts (fun _ => o) k qo pg lim).1.isError = true
        ∧ (ghlGetContacts (fun _ => o) k qo pg lim).1.content.length = 1)
    ∧ (∀ (o : FetchOutcome) (k cid : Str), isFaultFetch o →
      (ghlGetContact (fun _ => o) k cid).1.isError = true
        ∧ (ghlGetContact (fun _ => o) k cid).1.content.length = 1)
    ∧ (∀ (o : FetchOutcome) (k : Str) (cd : Json), isFaultFetch o →
      (ghlCreateContact (fun _ => o) k cd).1.isError = true
        ∧ (ghlCreateContact (fun _ => o) k cd).1.content.length = 1)
    ∧ (∀ (o : FetchOutcome) (k : Str) (lim : Int) (flds : List Str), isFaultFetch o →
      (keapListContacts (fun _ => o) k lim flds).1.isError = true
        ∧ (keapListContacts (fun _ => o) k lim flds).1.content.length = 1)
    ∧ (∀ (o : FetchOutcome) (k cid : Str) (flds : List Str), isFaultFetch o →
      (keapGetContact (fun _ => o) k cid flds).1.isError = true
        ∧ (keapGetContact (fun _ => o) k cid flds).1.content.length = 1)
    ∧ (∀ (o : FetchOutcome) (k q : Str) (lim : Int) (flds : List Str), isFaultFetch o →
      (keapSearchContacts (fun _ => o) k q lim flds).1.isError = true
        ∧ (keapSearchContacts (fun _ => o) k q lim flds).1.content.length = 1)
    ∧ (∀ (o : FetchOutcome) (k : Str) (lim : Int) (props : List Str), isFaultFetch o →
      (hubspotListContacts (fun _ => o) k lim props).1.isError = true
        ∧ (hubspotListContacts (fun _ => o) k lim props).1.content.length = 1)
    ∧ (∀ (o : FetchOutcome) (k sd : Str) (pg pp : Int) (fo : Option Str), isFaultAxios o →
      (fdListTickets (fun _ => o) k sd pg pp fo).1.isError = true
        ∧ (fdListTickets (fun _ => o) k sd pg pp fo).1.content.length = 1)
    ∧ (∀ (o : FetchOutcome) (k sd su de em : Str) (pri st : Int)
        (tags : Option (List Str)), isFaultAxios o →
      (fdCreateTicket (fun _ => o) k sd su de em pri st tags).1.isError = true
        ∧ (fdCreateTicket (fun _ => o) k sd su de em pri st tags).1.content.length = 1)
    ∧ (∀ (o : FetchOutcome) (k sd nm em : Str) (p m tw cn de : Option Str), isFaultAxios o →
      (fdCreateContact (fun _ => o) k sd nm em p m tw cn de).1.isError = true
        ∧ (fdCreateContact (fun _ => o) k sd nm em p m tw cn de).1.content.length = 1)
    ∧ (∀ m : Str, (pdGetAllPersons (fun _ => .reject m)).1.isError = true
        ∧ (pdGetAllPersons (fun _ => .reject m)).1.content.length = 1) := by
  refine ⟨?_, ?_, ?_, ?_, ?_, ?_, ?_, ?_, ?_, ?_, ?_⟩
  · intro o k qo pg lim hf
    cases o with
    | netError m => simp [ghlGetContacts, ghlRequest, mkErr]
    | ok r =>
      have hf' : respOk r = false ∨ jsonParse r.body = none := hf
      cases hrr : respOk r <;> cases hp : jsonParse r.body
      · simp [ghlGetContacts, ghlRequest, hrr, hp, mkErr]
      · simp [ghlGetContacts, ghlRequest, hrr, hp, mkErr]
      · simp [ghlGetContacts, ghlRequest, hrr, hp, mkErr]
      · rcases hf' with h1 | h1
        · rw [hrr] at h1; exact absurd h1 (by simp)
        · rw [hp] at h1; exact absurd h1 (by simp)
  · intro o k cid hf
    cases o with
    | netError m => simp [ghlGetContact, ghlRequest, mkErr]
    | ok r =>
      have hf' : respOk r = false ∨ jsonParse r.body = none := hf
      cases hrr : respOk r <;> cases hp : jsonParse r.body
      · simp [ghlGetContact, ghlRequest, hrr, hp, mkErr]
      · simp [ghlGetContact, ghlRequest, hrr, hp, mkErr]
      · simp [ghlGetContact, ghlRequest, hrr, hp, mkErr]
      · rcases hf' with h1 | h1
        · rw [hrr] at h1; exact absurd h1 (by simp)
        · rw [hp] at h1; exact absurd h1 (by simp)
  · intro o k cd hf
    cases o with
    | netError m => simp [ghlCreateContact, ghlRequest, mkErr]
    | ok r =>
      have hf' : respOk r = false ∨ jsonParse r.body = none := hf
      cases hrr : respOk r <;> cases hp : jsonParse r.body
      · simp [ghlCreateContact, ghlRequest, hrr, hp, mkErr]
      · simp [ghlCreateContact, ghlRequest, hrr, hp, mkErr]
      · simp [ghlCreateContact, ghlRequest, hrr, hp, mkErr]
      · rcases hf' with h1 | h1
        · rw [hrr] at h1; exact absurd h1 (by simp)
        · rw [hp] at h1; exact absurd h1 (by simp)
  · intro o k lim flds hf
    cases o with
    | netError m => simp [keapListContacts, mkErr]
    | ok r =>
      have hf' : respOk r = false ∨ jsonParse r.body = none := hf
      cases hrr : respOk r <;> cases hp : jsonParse r.body
      · simp [keapListContacts, hrr, hp, mkErr]
      · simp [keapListContacts, hrr, hp, mkErr]
      · simp [keapListContacts, hrr, hp, mkErr]
      · rcases hf' with h1 | h1
        · rw [hrr] at h1; exact absurd h1 (by simp)
        · rw [hp] at h1; exact absurd h1 (by simp)
  · intro o k cid flds hf
    cases o with
    | netError m => simp [keapGetContact, mkErr]
    | ok r =>
      have hf' : respOk r = false ∨ jsonParse r.body = none := hf
      cases hrr : respOk r <;> cases hp : jsonParse r.body
      · simp [keapGetContact, hrr, hp, mkErr]
      · simp [keapGetContact, hrr, hp, mkErr]
      · simp [keapGetContact, hrr, hp, mkErr]
      · rcases hf' with h1 | h1
        · rw [hrr] at h1; exact absurd h1 (by simp)
        · rw [hp] at h1; exact absurd h1 (by simp)
  · intro o k q lim flds hf
    cases o with
    | netError m => simp [keapSearchContacts, mkErr]
    | ok r =>
      have hf' : respOk r = false ∨ jsonParse r.body = none := hf
      cases hrr : respOk r <;> cases hp : jsonParse r.body
      · simp [keapSearchContacts, hrr, hp, mkErr]
      · simp [keapSearchContacts, hrr, hp, mkErr]
      · simp [keapSearchContacts, hrr, hp, mkErr]
      · rcases hf' with h1 | h1
        · rw [hrr] at h1; exact absurd h1 (by simp)
        · rw [hp] at h1; exact absurd h1 (by simp)
  · intro o k lim props hf
    cases o with
    | netError m => simp [hubspotListContacts, mkErr]
    | ok r =>
      have hf' : respOk r = false ∨ jsonParse r.body = none := hf
      cases hrr : respOk r <;> cases hp : jsonParse r.body
      · simp [hubspotListContacts, hrr, hp, mkErr]
      · simp [hubspotListContacts, hrr, hp, mkErr]
      · simp [hubspotListContacts, hrr, hp, mkErr]
      · rcases hf' with h1 | h1
        · rw [hrr] at h1; exact absurd h1 (by simp)
        · rw [hp] at h1; exact absurd h1 (by simp)
  · intro o k sd pg pp fo hf
    cases o with
    | netError m => simp [fdListTickets, mkErr, handleApiError]
    | ok r =>
      have hf' : respOk r = false := hf
      simp [fdListTickets, hf', mkErr, handleApiError]
  · intro o k sd su de em pri st tags hf
    cases o with
    | netError m => simp [fdCreateTicket, mkErr, handleApiError]
    | ok r =>
      have hf' : respOk r = false := hf
      simp [fdCreateTicket, hf', mkErr, handleApiError]
  · intro o k sd nm em p m tw cn de hf
    cases o with
    | netError m2 => simp [fdCreateContact, mkErr, handleApiError]
    | ok r =>
      have hf' : respOk r = false := hf
      simp [fdCreateContact, hf', mkErr, handleApiError]
  · intro m
    simp [pdGetAllPersons, mkErr]

/-- C1 witness: a concrete faulting transport (network rejection) makes the
Keap list-contacts handler return a one-item error envelope. -/
theorem C1_fault_envelopes_witness :
    isFaultFetch (.netError "connection refused".data)
      ∧ (keapListContacts (fun _ => .netError "connection refused".data) "key".data 10
          ["email".data]).1.isError = true
      ∧ (keapListContacts (fun _ => .netError "connection refused".data) "key".data 10
          ["email".data]).1.content.length = 1 := by
  refine ⟨trivial, ?_⟩
  have h := C1_fault_envelopes.2.2.2.1 (.netError "connection refused".data) "key".data 10
    ["email".data] trivial
  exact h

/-- C8: every modelled tool handler issues exactly one HTTP call per
invocation (the request trace is a singleton; the Pipedrive handler's SDK
call counter is one) and produces exactly one envelope, holding exactly one
content item, for every input and every transport outcome. -/
theorem C8_one_call_one_envelope :
    (∀ (t : Transport) (k : Str) (qo : Option Str) (pg lim : Int),
      (ghlGetContacts t k qo pg lim).2.length = 1
        ∧ (ghlGetContacts t k qo pg lim).1.content.length = 1)
    ∧ (∀ (t : Transport) (k cid : Str),
      (ghlGetContact t k cid).2.length = 1
        ∧ (ghlGetContact t k cid).1.content.length = 1)
    ∧ (∀ (t : Transport) (k : Str) (cd : Json),
      (ghlCreateContact t k cd).2.length = 1
        ∧ (ghlCreateContact t k cd).1.content.length = 1)
    ∧ (∀ (t : Transport) (k : Str) (lim : Int) (flds : List Str),
      (keapListContacts t k lim flds).2.length = 1
        ∧ (keapListContacts t k lim flds).1.content.length = 1)
    ∧ (∀ (t : Transport) (k cid : Str) (flds : List Str),
      (keapGetContact t k cid flds).2.length = 1
        ∧ (keapGetContact t k cid flds).1.content.length = 1)
    ∧ (∀ (t : Transport) (k q : Str) (lim : Int) (flds : List Str),
      (keapSearchContacts t k q lim flds).2.length = 1
        ∧ (keapSearchContacts t k q lim flds).1.content.length = 1)
    ∧ (∀ (t : Transport) (k : Str) (lim : Int) (props : List Str),
      (hubspotListContacts t k lim props).2.length = 1
        ∧ (hubspotListContacts t k lim props).1.content.length = 1)
    ∧ (∀ (t : Transport) (k sd : Str) (pg pp : Int) (fo : Option Str),
      (fdListTickets t k sd pg pp fo).2.length = 1
        ∧ (fdListTickets t k sd pg pp fo).1.content.length = 1)
    ∧ (∀ (t : Transport) (k sd su de em : Str) (pri st : Int) (tags : Option (List Str)),
      (fdCreateTicket t k sd su de em pri st tags).2.length = 1
        ∧ (fdCreateTicket t k sd su de em pri st tags).1.content.length = 1)
    ∧ (∀ (t : Transport) (k sd nm em : Str) (p m tw cn de : Option Str),
      (fdCreateContact t k sd nm em p m tw cn de).2.length = 1
        ∧ (fdCreateContact t k sd nm em p m tw cn de).1.content.length = 1)
    ∧ (∀ api : Unit → PdOutcome,
      (pdGetAllPersons api).2 = 1 ∧ (pdGetAllPersons api).1.content.length = 1) := by
  refine ⟨?_, ?_, ?_, ?_, ?_, ?_, ?_, ?_, ?_, ?_, ?_⟩
  · intro t k qo pg lim
    simp only [ghlGetContacts, ghlRequest]
    split <;> rename_i heq <;> (repeat' split at heq) <;> simp_all [mkText, mkErr] <;>
      (rw [← heq.2]) <;> rfl
  · intro t k cid
    simp only [ghlGetContact, ghlRequest]
    split <;> rename_i heq <;> (repeat' split at heq) <;> simp_all [mkText, mkErr] <;>
      (rw [← heq.2]) <;> rfl
  · intro t k cd
    simp only [ghlCreateContact, ghlRequest]
    split <;> rename_i heq <;> (repeat' split at heq) <;> simp_all [mkText, mkErr] <;>
      (rw [← heq.2]) <;> rfl
  · intro t k lim flds
    simp only [keapListContacts]
    repeat' split
    all_goals simp [mkText, mkErr]
  · intro t k cid flds
    simp only [keapGetContact]
    repeat' split
    all_goals simp [mkText, mkErr]
  · intro t k q lim flds
    simp only [keapSearchContacts]
    repeat' split
    all_goals simp [mkText, mkErr]
  · intro t k lim props
    simp only [hubspotListContacts]
    repeat' split
    all_goals simp [mkText, mkErr]
  · intro t k sd pg pp fo
    simp only [fdListTickets]
    repeat' split
    all_goals simp [mkText, mkErr]
  · intro t k sd su de em pri st tags
    simp only [fdCreateTicket]
    repeat' split
    all_goals simp [mkText, mkErr]
  · intro t k sd nm em p m tw cn de
    simp only [fdCreateContact]
    repeat' split
    all_goals simp [mkText, mkErr]
  · intro api
    simp only [pdGetAllPersons]
    repeat' split
    all_goals simp [mkText, mkErr]

/-- C7 counterexample: `freshdesk-create-ticket` answers a 200 response
with body `{"id":42}` with a success envelope whose text is NOT the plain
2-space-indented serialisation of the body — it is prefixed by the
confirmation line. -/
theorem C7_counterexample :
    (fdCreateTicket (fun _ => .ok ⟨200, "OK".data, "\x7b\"id\":42\x7d".data⟩)
        "k".data "sd".data "Subj".data "Desc".data "a@b.com".data 2 2 none).1.isError = false
    ∧ envText (fdCreateTicket (fun _ => .ok ⟨200, "OK".data, "\x7b\"id\":42\x7d".data⟩)
        "k".data "sd".data "Subj".data "Desc".data "a@b.com".data 2 2 none).1
      = "Ticket created successfully with ID: 42\n\n\x7b\n  \"id\": 42\n\x7d".data
    ∧ envText (fdCreateTicket (fun _ => .ok ⟨200, "OK".data, "\x7b\"id\":42\x7d".data⟩)
        "k".data "sd".data "Subj".data "Desc".data "a@b.com".data 2 2 none).1
      ≠ "\x7b\n  \"id\": 42\n\x7d".data := by
  decide

/-- C7 amended: for the read-style tools whose success text is the plain
serialisation (list/get tools of every server; the mutating FreshDesk
tools prefix a confirmation line instead), a 200 response whose JSON body
is `{"id": 42}` yields a non-error envelope whose text is byte-equal to
the 2-space-indented serialisation of that body. -/
theorem C7_pretty_success :
    ∀ (stx body : Str),
      jsonParse body = some (Json.obj (.cons "id".data (Json.num 42) .nil)) →
      ∀ (k cid q sd : Str) (qo fo : Option Str) (pg lim pp : Int) (flds props : List Str),
        ((keapListContacts (fun _ => .ok ⟨200, stx, body⟩) k lim flds).1.isError = false
          ∧ envText (keapListContacts (fun _ => .ok ⟨200, stx, body⟩) k lim flds).1
            = "\x7b\n  \"id\": 42\n\x7d".data)
        ∧ ((ghlGetContacts (fun _ => .ok ⟨200, stx, body⟩) k qo pg lim).1.isError = false
          ∧ envText (ghlGetContacts (fun _ => .ok ⟨200, stx, body⟩) k qo pg lim).1
            = "\x7b\n  \"id\": 42\n\x7d".data)
        ∧ ((ghlGetContact (fun _ => .ok ⟨200, stx, body⟩) k cid).1.isError = false
          ∧ envText (ghlGetContact (fun _ => .ok ⟨200, stx, body⟩) k cid).1
            = "\x7b\n  \"id\": 42\n\x7d".data)
        ∧ ((keapSearchContacts (fun _ => .ok ⟨200, stx, body⟩) k q lim flds).1.isError = false
          ∧ envText (keapSearchContacts (fun _ => .ok ⟨200, stx, body⟩) k q lim flds).1
            = "\x7b\n  \"id\": 42\n\x7d".data)
        ∧ ((hubspotListContacts (fun _ => .ok ⟨200, stx, body⟩) k lim props).1.isError = false
          ∧ envText (hubspotListContacts (fun _ => .ok ⟨200, stx, body⟩) k lim props).1
            = "\x7b\n  \"id\": 42\n\x7d".data)
        ∧ ((fdListTickets (fun _ => .ok ⟨200, stx, body⟩) k sd pg pp fo).1.isError = false
          ∧ envText (fdListTickets (fun _ => .ok ⟨200, stx, body⟩) k sd pg pp fo).1
            = "\x7b\n  \"id\": 42\n\x7d".data)
        ∧ ((pdGetAllPersons (fun _ =>
              .resolve (Json.obj (.cons "id".data (Json.num 42) .nil)))).1.isError = false
          ∧ envText (pdGetAllPersons (fun _ =>
              .resolve (Json.obj (.cons "id".data (Json.num 42) .nil)))).1
            = "\x7b\n  \"id\": 42\n\x7d".data) := by
  intro stx body hp k cid q sd qo fo pg lim pp flds props
  have hok : respOk ⟨200, stx, body⟩ = true := rfl
  have hser : ser (Json.obj (.cons "id".data (Json.num 42) .nil)) 0
      = "\x7b\n  \"id\": 42\n\x7d".data := by decide
  refine ⟨?_, ?_, ?_, ?_, ?_, ?_, ?_⟩
  · simp [keapListContacts, hok, hp, mkText, envText, hser]
  · simp [ghlGetContacts, ghlRequest, hok, hp, mkText, envText, hser]
  · simp [ghlGetContact, ghlRequest, hok, hp, mkText, envText, hser]
  · simp [keapSearchContacts, hok, hp, mkText, envText, hser]
  · simp [hubspotListContacts, hok, hp, mkText, envText, hser]
  · simp [fdListTickets, hok, axiosData, hp, mkText, envText, hser]
  · simp [pdGetAllPersons, mkText, envText, hser]

/-- C7 witness: the amended statement applied at the concrete compact body
`{"id":42}`. -/
theorem C7_pretty_success_witness :
    jsonParse "\x7b\"id\":42\x7d".data
        = some (Json.obj (.cons "id".data (Json.num 42) .nil))
      ∧ ((keapListContacts (fun _ => .ok ⟨200, "OK".data, "\x7b\"id\":42\x7d".data⟩)
          "k".data 10 ["email".data]).1.isError = false
        ∧ envText (keapListContacts (fun _ => .ok ⟨200, "OK".data, "\x7b\"id\":42\x7d".data⟩)
          "k".data 10 ["email".data]).1 = "\x7b\n  \"id\": 42\n\x7d".data) :=
  ⟨by decide,
    (C7_pretty_success "OK".data "\x7b\"id\":42\x7d".data (by decide) "k".data "c".data
      "q".data "sd".data none none 1 10 30 ["email".data] ["email".data]).1⟩

/-- C3 counterexample: the success envelope of `freshdesk-create-ticket`
for a 200 response with body `{"id":1}` does not re-parse as JSON at all
(its text begins with the confirmation line), so it cannot reproduce the
original response object. -/
theorem C3_counterexample :
    (fdCreateTicket (fun _ => .ok ⟨200, "OK".data, "\x7b\"id\":1\x7d".data⟩)
        "k".data "sd".data "S".data "D".data "a@b.com".data 2 2 none).1.isError = false
    ∧ jsonParse (envText (fdCreateTicket
        (fun _ => .ok ⟨200, "OK".data, "\x7b\"id\":1\x7d".data⟩)
        "k".data "sd".data "S".data "D".data "a@b.com".data 2 2 none).1) = none := by
  decide

/-- C3 amended: for the tools whose success text is the plain 2-space
serialisation (here the Keap list tool and the GoHighLevel contacts tool),
parsing the success envelope's text as JSON reproduces exactly the parsed
vendor response object. -/
theorem C3_roundtrip :
    ∀ (stx body : Str) (data : Json), jsonParse body = some data →
      ∀ (k : Str) (qo : Option Str) (pg lim : Int) (flds : List Str),
        ((keapListContacts (fun _ => .ok ⟨200, stx, body⟩) k lim flds).1.isError = false
          ∧ jsonParse (envText (keapListContacts (fun _ => .ok ⟨200, stx, body⟩)
              k lim flds).1) = some data)
        ∧ ((ghlGetContacts (fun _ => .ok ⟨200, stx, body⟩) k qo pg lim).1.isError = false
          ∧ jsonParse (envText (ghlGetContacts (fun _ => .ok ⟨200, stx, body⟩)
              k qo pg lim).1) = some data) := by
  intro stx body data hp k qo pg lim flds
  have hok : respOk ⟨200, stx, body⟩ = true := rfl
  constructor
  · constructor
    · simp [keapListContacts, hok, hp, mkText]
    · have : envText (keapListContacts (fun _ => .ok ⟨200, stx, body⟩) k lim flds).1
          = ser data 0 := by
        simp [keapListContacts, hok, hp, mkText, envText]
      rw [this, jsonParse_ser]
  · constructor
    · simp [ghlGetContacts, ghlRequest, hok, hp, mkText]
    · have : envText (ghlGetContacts (fun _ => .ok ⟨200, stx, body⟩) k qo pg lim).1
          = ser data 0 := by
        simp [ghlGetContacts, ghlRequest, hok, hp, mkText, envText]
      rw [this, jsonParse_ser]

/-- C3 witness: the round trip at the concrete body `{"ok":true}`. -/
theorem C3_roundtrip_witness :
    jsonParse "\x7b\"ok\":true\x7d".data
        = some (Json.obj (.cons "ok".data (Json.bool true) .nil))
      ∧ jsonParse (envText (keapListContacts
          (fun _ => .ok ⟨200, "OK".data, "\x7b\"ok\":true\x7d".data⟩)
          "k".data 10 ["email".data]).1)
        = some (Json.obj (.cons "ok".data (Json.bool true) .nil)) :=
  ⟨by decide,
    ((C3_roundtrip "OK".data "\x7b\"ok\":true\x7d".data
      (Json.obj (.cons "ok".data (Json.bool true) .nil)) (by decide)
      "k".data none 1 10 ["email".data]).1).2⟩

/-- C2 counterexample: on a 404 response with body `{"message":"not found"}`
the GoHighLevel `getContacts` tool returns the envelope text
`Error: GoHighLevel API error: not found` — not the `API Error (<status>):
<body>` form, and with no `404` substring at all. -/
theorem C2_counterexample :
    (ghlGetContacts (fun _ => .ok ⟨404, "Not Found".data,
        "\x7b\"message\":\"not found\"\x7d".data⟩) "k".data none 1 20).1.isError = true
    ∧ envText (ghlGetContacts (fun _ => .ok ⟨404, "Not Found".data,
        "\x7b\"message\":\"not found\"\x7d".data⟩) "k".data none 1 20).1
      = "Error: GoHighLevel API error: not found".data
    ∧ ¬ ("404".data <:+: envText (ghlGetContacts (fun _ => .ok ⟨404, "Not Found".data,
        "\x7b\"message\":\"not found\"\x7d".data⟩) "k".data none 1 20).1)
    ∧ envText (ghlGetContacts (fun _ => .ok ⟨404, "Not Found".data,
        "\x7b\"message\":\"not found\"\x7d".data⟩) "k".data none 1 20).1
      ≠ "API Error (404): \x7b\"message\":\"not found\"\x7d".data := by
  decide

/-- C2 amended: the `API Error (<status>): <body>` format is the error
shape of the FreshWorks server only — its list-tickets tool produces
exactly that envelope for every non-2xx status.  The Keap server reports
the status and raw body in its own `Error fetching …: <status>
<statusText>\n<body>` format (both the status digits and the body occur in
the text); the GoHighLevel server (see C9) omits the status.  On a 404
with body `{"message":"not found"}` the FreshWorks text contains both
`404` and `not found`. -/
theorem C2_api_error_format :
    (∀ (k sd stx body : Str) (pg pp : Int) (fo : Option Str) (status : Nat),
      respOk ⟨status, stx, body⟩ = false →
      (fdListTickets (fun _ => .ok ⟨status, stx, body⟩) k sd pg pp fo).1
        = mkErr ("API Error (".data ++ natToDigits status ++ "): ".data
            ++ serC (axiosData body)))
    ∧ (∀ (k stx body : Str) (lim : Int) (flds : List Str) (status : Nat),
      respOk ⟨status, stx, body⟩ = false →
      (keapListContacts (fun _ => .ok ⟨status, stx, body⟩) k lim flds).1
        = mkErr ("Error fetching Keap contacts: ".data ++ natToDigits status
            ++ ' ' :: (stx ++ '\n' :: body))
      ∧ natToDigits status
          <:+: envText (keapListContacts (fun _ => .ok ⟨status, stx, body⟩) k lim flds).1
      ∧ body <:+: envText (keapListContacts (fun _ => .ok ⟨status, stx, body⟩) k lim flds).1)
    ∧ ("404".data <:+: envText (fdListTickets (fun _ => .ok ⟨404, "Not Found".data,
          "\x7b\"message\":\"not found\"\x7d".data⟩) "k".data "sd".data 1 30 none).1
      ∧ "not found".data <:+: envText (fdListTickets (fun _ => .ok ⟨404, "Not Found".data,
          "\x7b\"message\":\"not found\"\x7d".data⟩) "k".data "sd".data 1 30 none).1
      ∧ (fdListTickets (fun _ => .ok ⟨404, "Not Found".data,
          "\x7b\"message\":\"not found\"\x7d".data⟩)
          "k".data "sd".data 1 30 none).1.isError = true) := by
  refine ⟨?_, ?_, by decide⟩
  · intro k sd stx body pg pp fo status hbad
    simp [fdListTickets, hbad, handleApiError, mkErr]
  · intro k stx body lim flds status hbad
    refine ⟨by simp [keapListContacts, hbad, mkErr], ?_, ?_⟩
    · have he : envText (keapListContacts (fun _ => .ok ⟨status, stx, body⟩) k lim flds).1
          = "Error fetching Keap contacts: ".data ++ natToDigits status
            ++ ' ' :: (stx ++ '\n' :: body) := by
        simp [keapListContacts, hbad, mkErr, envText]
      rw [he]
      exact ⟨"Error fetching Keap contacts: ".data, ' ' :: (stx ++ '\n' :: body), by simp⟩
    · have he : envText (keapListContacts (fun _ => .ok ⟨status, stx, body⟩) k lim flds).1
          = "Error fetching Keap contacts: ".data ++ natToDigits status
            ++ ' ' :: (stx ++ '\n' :: body) := by
        simp [keapListContacts, hbad, mkErr, envText]
      rw [he]
      exact ⟨"Error fetching Keap contacts: ".data ++ natToDigits status ++ ' ' :: stx
        ++ ['\n'], [], by simp⟩

/-- C2 witness: the amended statement at a concrete 500 response. -/
theorem C2_api_error_format_witness :
    respOk ⟨500, "Internal Server Error".data, "oops".data⟩ = false
      ∧ (fdListTickets (fun _ => .ok ⟨500, "Internal Server Error".data, "oops".data⟩)
          "k".data "sd".data 1 30 none).1
        = mkErr ("API Error (".data ++ natToDigits 500 ++ "): ".data
            ++ serC (axiosData "oops".data)) :=
  ⟨by decide,
    C2_api_error_format.1 "k".data "sd".data "Internal Server Error".data "oops".data
      1 30 none 500 (by decide)⟩

/-- C5 counterexample: the GoHighLevel tool literally named `createContact`,
called with `{email: "a@b.com"}` against the fake backend that echoes the
posted body augmented with `id: "c1"`, returns a success whose text is the
bare pretty-printed echo — its first line is `{` and does not contain
`c1`. -/
theorem C5_counterexample :
    (ghlCreateContact echoC1 "k".data
        (Json.obj (.cons "email".data (.str "a@b.com".data) .nil))).1.isError = false
    ∧ envText (ghlCreateContact echoC1 "k".data
        (Json.obj (.cons "email".data (.str "a@b.com".data) .nil))).1
      = "\x7b\n  \"email\": \"a@b.com\",\n  \"id\": \"c1\"\n\x7d".data
    ∧ ¬ ("c1".data <:+: firstLine (envText (ghlCreateContact echoC1 "k".data
        (Json.obj (.cons "email".data (.str "a@b.com".data) .nil))).1)) := by
  decide

/-- C5 amended: against the echoing backend, GoHighLevel's `createContact`
returns the full JSON echo with no confirmation line, while the FreshDesk
`freshdesk-create-contact` tool (whose schema additionally requires a name)
returns a text whose first line contains `c1`, followed by the full JSON
echo of the created object. -/
theorem C5_create_contact_echo :
    ((ghlCreateContact echoC1 "k".data
        (Json.obj (.cons "email".data (.str "a@b.com".data) .nil))).1.isError = false
      ∧ firstLine (envText (ghlCreateContact echoC1 "k".data
          (Json.obj (.cons "email".data (.str "a@b.com".data) .nil))).1) = "\x7b".data)
    ∧ ((fdCreateContact echoC1 "k".data "sd".data "Ada".data "a@b.com".data
          none none none none none).1.isError = false
      ∧ "c1".data <:+: firstLine (envText (fdCreateContact echoC1 "k".data "sd".data
          "Ada".data "a@b.com".data none none none none none).1)
      ∧ envText (fdCreateContact echoC1 "k".data "sd".data "Ada".data "a@b.com".data
          none none none none none).1
        = "Contact created successfully with ID: c1\n\n".data
          ++ ser (Json.obj (.cons "name".data (.str "Ada".data)
              (.cons "email".data (.str "a@b.com".data)
                (.cons "id".data (.str "c1".data) .nil)))) 0) := by
  decide

/-- C6 counterexample: `keap-get-contact` interpolates the contact ID into
the path verbatim — for the ID `a b` the URL contains the raw space and is
not the percent-encoded form the claim requires. -/
theorem C6_counterexample :
    keapGetContactUrl "a b".data ["email".data]
        = keapBase ++ "/contacts/".data ++ "a b".data ++ "?fields=email".data
    ∧ keapGetContactUrl "a b".data ["email".data]
        ≠ keapBase ++ "/contacts/".data ++ uriEncode "a b".data ++ "?fields=email".data := by
  decide

/-- C6 amended: path parameters are substituted verbatim into the URL
templates, with no percent-encoding of the segment: the Keap get-contact
URL is the raw concatenation around the contact ID, and the single request
issued by GoHighLevel's `getContact` has the raw `/contacts/<id>` URL. -/
theorem C6_path_verbatim :
    (∀ (cid : Str) (flds : List Str),
      keapGetContactUrl cid flds
        = keapBase ++ ("/contacts/".data ++ (cid ++ ("?fields=".data ++ joinComma flds))))
    ∧ (∀ (t : Transport) (k cid : Str),
      (ghlGetContact t k cid).2.map Request.url
        = [GHL_API_BASE ++ ("/contacts/".data ++ cid)]) := by
  constructor
  · intro cid flds
    simp [keapGetContactUrl]
  · intro t k cid
    simp only [ghlGetContact, ghlRequest]
    split <;> rename_i heq <;> (repeat' split at heq) <;> simp_all [mkText, mkErr] <;>
      (rw [← heq.2]) <;> simp

/-- C9 counterexample to the claim's universal "never contains the status
code": when the 404 body's own message mentions `404`, the envelope text
contains `404`. -/
theorem C9_counterexample :
    (ghlGetContacts (fun _ => .ok ⟨404, "Not Found".data,
        "\x7b\"message\":\"error 404\"\x7d".data⟩) "k".data none 1 20).1.isError = true
    ∧ "404".data <:+: envText (ghlGetContacts (fun _ => .ok ⟨404, "Not Found".data,
        "\x7b\"message\":\"error 404\"\x7d".data⟩) "k".data none 1 20).1 := by
  decide

/-- C9 amended: `ghlRequest` awaits the JSON parse before the `ok` check.
Consequently (a) on every non-2xx response with a parseable body the
envelope text is exactly `Error: GoHighLevel API error: <message-or-
statusText>`; the numeric status is never added by the formatting, so the
text contains the status digits only if `data.message || statusText`
does; and (b) on every response whose body is not valid JSON — including
non-2xx ones — the envelope reports the JSON parse failure instead of the
vendor error body. -/
theorem C9_ghl_status_dropped :
    (∀ (k : Str) (qo : Option Str) (pg lim : Int) (status : Nat) (stx body : Str)
        (fs : JsonFields),
      jsonParse body = some (.obj fs) → respOk ⟨status, stx, body⟩ = false →
      envText (ghlGetContacts (fun _ => .ok ⟨status, stx, body⟩) k qo pg lim).1
          = "Error: GoHighLevel API error: ".data ++ ghlMsgCore (.obj fs) stx
        ∧ (¬ (natToDigits status <:+: ghlMsgCore (.obj fs) stx) →
          ¬ (natToDigits status
            <:+: envText (ghlGetContacts (fun _ => .ok ⟨status, stx, body⟩) k qo pg lim).1)))
    ∧ (∀ (k : Str) (qo : Option Str) (pg lim : Int) (status : Nat) (stx body : Str),
      jsonParse body = none →
      (ghlGetContacts (fun _ => .ok ⟨status, stx, body⟩) k qo pg lim).1
        = mkErr ("Error: ".data ++ jsonParseErrMsg)) := by
  constructor
  · intro k qo pg lim status stx body fs hp hbad
    have htext : envText (ghlGetContacts (fun _ => .ok ⟨status, stx, body⟩) k qo pg lim).1
        = "Error: GoHighLevel API error: ".data ++ ghlMsgCore (.obj fs) stx := by
      have : "Error: ".data ++ ("GoHighLevel API error: ".data ++ ghlMsgCore (.obj fs) stx)
          = "Error: GoHighLevel API error: ".data ++ ghlMsgCore (.obj fs) stx := by
        simp
      simp [ghlGetContacts, ghlRequest, hp, hbad, mkErr, envText, ghlErrMsg]
    refine ⟨htext, ?_⟩
    intro hnot hmem
    rw [htext] at hmem
    apply hnot
    refine infix_drop_left ?_ hmem
    intro c hct hcp
    have hd : isDigitC c = true := natToDigits_digits _ c hct
    have hpfx : ∀ x ∈ "Error: GoHighLevel API error: ".data, isDigitC x = false := by decide
    have := hpfx c hcp
    rw [hd] at this
    exact Bool.noConfusion this
  · intro k qo pg lim status stx body hp
    simp [ghlGetContacts, ghlRequest, hp, mkErr]

/-- C9 witness: the amended statement at a 404 whose message does not
mention the status. -/
theorem C9_ghl_status_dropped_witness :
    jsonParse "\x7b\"message\":\"nope\"\x7d".data
        = some (.obj (.cons "message".data (.str "nope".data) .nil))
      ∧ respOk ⟨404, "Not Found".data, "\x7b\"message\":\"nope\"\x7d".data⟩ = false
      ∧ ¬ (natToDigits 404
          <:+: ghlMsgCore (.obj (.cons "message".data (.str "nope".data) .nil))
            "Not Found".data)
      ∧ ¬ (natToDigits 404 <:+: envText (ghlGetContacts
          (fun _ => .ok ⟨404, "Not Found".data, "\x7b\"message\":\"nope\"\x7d".data⟩)
          "k".data none 1 20).1) :=
  ⟨by decide, by decide, by decide,
    (C9_ghl_status_dropped.1 "k".data none 1 20 404 "Not Found".data
      "\x7b\"message\":\"nope\"\x7d".data
      (.cons "message".data (.str "nope".data) .nil) (by decide) (by decide)).2
      (by decide)⟩

/-- C10 counterexample to the implicit uniqueness/robustness reading: with
a non-email query and a field entry containing `&...=`, the issued query
string's keys include BOTH `email` and `given_name` (the un-encoded
`fields` values can forge extra query keys). -/
theorem C10_counterexample :
    (("q".data : Str).contains '@') = false
      ∧ "email".data ∈ qsKeys (keapSearchQS "q".data 10 ["x&email=e".data])
      ∧ "given_name".data ∈ qsKeys (keapSearchQS "q".data 10 ["x&email=e".data]) := by
  decide

/-- C10 amended: provided the `fields` entries contain no `&` and no `=`
(the handler joins them verbatim), the search query string parses to
exactly three pairs — the first keyed `email` iff the query contains `@`
and `given_name` otherwise, with the query value percent-encoded — so
`email` is a key iff the query contains `@`, and `given_name` iff not. -/
theorem C10_search_key_selection :
    ∀ (query : Str) (lim : Int) (fields : List Str),
      (∀ fl ∈ fields, '&' ∉ fl ∧ '=' ∉ fl) →
      qsPairs (keapSearchQS query lim fields)
          = [((if query.contains '@' then "email".data else "given_name".data),
              uriEncode query),
             ("limit".data, intToChars lim),
             ("fields".data, joinComma fields)]
        ∧ ("email".data ∈ qsKeys (keapSearchQS query lim fields)
            ↔ query.contains '@' = true)
        ∧ ("given_name".data ∈ qsKeys (keapSearchQS query lim fields)
            ↔ query.contains '@' = false) := by
  intro query lim fields hf
  have hfAmp : '&' ∉ joinComma fields :=
    notin_joinComma (by decide) (fun s hs => (hf s hs).1)
  have hA2 : ∀ c ∈ "limit".data ++ '=' :: intToChars lim, c ≠ '&' := by
    intro c hc hEq
    subst hEq
    rcases List.mem_append.1 hc with h | h
    · exact absurd h (by decide)
    · rcases List.mem_cons.1 h with h | h
      · exact absurd h (by decide)
      · rcases intToChars_chars lim '&' h with hd | hd
        · exact absurd hd (by decide)
        · exact absurd hd (by decide)
  have hA3 : ∀ c ∈ "fields".data ++ '=' :: joinComma fields, c ≠ '&' := by
    intro c hc hEq
    subst hEq
    rcases List.mem_append.1 hc with h | h
    · exact absurd h (by decide)
    · rcases List.mem_cons.1 h with h | h
      · exact absurd h (by decide)
      · exact hfAmp h
  by_cases hq : query.contains '@' = true
  · have hshape : keapSearchQS query lim fields
        = ("email".data ++ '=' :: uriEncode query) ++ '&' ::
          (("limit".data ++ '=' :: intToChars lim) ++ '&' ::
            ("fields".data ++ '=' :: joinComma fields)) := by
      unfold keapSearchQS keapSearchParam
      rw [if_pos hq]
      rw [show ("email=".data : Str) = "email".data ++ ['='] from rfl,
        show ("&limit=".data : Str) = ['&'] ++ ("limit".data ++ ['=']) from rfl,
        show ("&fields=".data : Str) = ['&'] ++ ("fields".data ++ ['=']) from rfl]
      simp [List.append_assoc]
    have hA1 : ∀ c ∈ "email".data ++ '=' :: uriEncode query, c ≠ '&' := by
      intro c hc hEq
      subst hEq
      rcases List.mem_append.1 hc with h | h
      · exact absurd h (by decide)
      · rcases List.mem_cons.1 h with h | h
        · exact absurd h (by decide)
        · exact amp_notin_uriEncode query h
    have hsplit : splitOnCharL '&' (keapSearchQS query lim fields)
        = [("email".data ++ '=' :: uriEncode query),
           ("limit".data ++ '=' :: intToChars lim),
           ("fields".data ++ '=' :: joinComma fields)] := by
      rw [hshape, splitOnCharL_append hA1, splitOnCharL_append hA2,
        splitOnCharL_nosep hA3]
    have hne : keapSearchQS query lim fields ≠ [] := by
      rw [hshape]; simp
    have hpairs : qsPairs (keapSearchQS query lim fields)
        = [("email".data, uriEncode query), ("limit".data, intToChars lim),
           ("fields".data, joinComma fields)] := by
      unfold qsPairs
      rw [if_neg hne, hsplit]
      simp only [List.map_cons, List.map_nil]
      rw [(@seg_split "email".data (uriEncode query) (by decide)).1,
        (@seg_split "email".data (uriEncode query) (by decide)).2,
        (@seg_split "limit".data (intToChars lim) (by decide)).1,
        (@seg_split "limit".data (intToChars lim) (by decide)).2,
        (@seg_split "fields".data (joinComma fields) (by decide)).1,
        (@seg_split "fields".data (joinComma fields) (by decide)).2]
    have hkeys : qsKeys (keapSearchQS query lim fields)
        = ["email".data, "limit".data, "fields".data] := by
      unfold qsKeys
      rw [hpairs]
      rfl
    refine ⟨by rw [hpairs, if_pos hq], ?_, ?_⟩
    · rw [hkeys]
      exact ⟨fun _ => hq, fun _ => by decide⟩
    · rw [hkeys]
      refine ⟨fun h => absurd h (by decide), fun h => ?_⟩
      rw [hq] at h
      exact Bool.noConfusion h
  · have hq' : query.contains '@' = false := by
      cases h : query.contains '@'
      · rfl
      · exact absurd h hq
    have hshape : keapSearchQS query lim fields
        = ("given_name".data ++ '=' :: uriEncode query) ++ '&' ::
          (("limit".data ++ '=' :: intToChars lim) ++ '&' ::
            ("fields".data ++ '=' :: joinComma fields)) := by
      unfold keapSearchQS keapSearchParam
      rw [if_neg hq]
      rw [show ("given_name=".data : Str) = "given_name".data ++ ['='] from rfl,
        show ("&limit=".data : Str) = ['&'] ++ ("limit".data ++ ['=']) from rfl,
        show ("&fields=".data : Str) = ['&'] ++ ("fields".data ++ ['=']) from rfl]
      simp [List.append_assoc]
    have hA1 : ∀ c ∈ "given_name".data ++ '=' :: uriEncode query, c ≠ '&' := by
      intro c hc hEq
      subst hEq
      rcases List.mem_append.1 hc with h | h
      · exact absurd h (by decide)
      · rcases List.mem_cons.1 h with h | h
        · exact absurd h (by decide)
        · exact amp_notin_uriEncode query h
    have hsplit : splitOnCharL '&' (keapSearchQS query lim fields)
        = [("given_name".data ++ '=' :: uriEncode query),
           ("limit".data ++ '=' :: intToChars lim),
           ("fields".data ++ '=' :: joinComma fields)] := by
      rw [hshape, splitOnCharL_append hA1, splitOnCharL_append hA2,
        splitOnCharL_nosep hA3]
    have hne : keapSearchQS query lim fields ≠ [] := by
      rw [hshape]; simp
    have hpairs : qsPairs (keapSearchQS query lim fields)
        = [("given_name".data, uriEncode query), ("limit".data, intToChars lim),
           ("fields".data, joinComma fields)] := by
      unfold qsPairs
      rw [if_neg hne, hsplit]
      simp only [List.map_cons, List.map_nil]
      rw [(@seg_split "given_name".data (uriEncode query) (by decide)).1,
        (@seg_split "given_name".data (uriEncode query) (by decide)).2,
        (@seg_split "limit".data (intToChars lim) (by decide)).1,
        (@seg_split "limit".data (intToChars lim) (by decide)).2,
        (@seg_split "fields".data (joinComma fields) (by decide)).1,
        (@seg_split "fields".data (joinComma fields) (by decide)).2]
    have hkeys : qsKeys (keapSearchQS query lim fields)
        = ["given_name".data, "limit".data, "fields".data] := by
      unfold qsKeys
      rw [hpairs]
      rfl
    refine ⟨by rw [hpairs, if_neg hq], ?_, ?_⟩
    · rw [hkeys]
      exact ⟨fun h => absurd h (by decide), fun h => absurd h hq⟩
    · rw [hkeys]
      exact ⟨fun _ => hq', fun _ => by decide⟩

/-- C10 witness: the amended statement at an email-shaped query and a
clean fields list. -/
theorem C10_search_key_selection_witness :
    (∀ fl ∈ [("name".data : Str)], '&' ∉ fl ∧ '=' ∉ fl)
      ∧ (qsPairs (keapSearchQS "a@b".data 10 ["name".data])
            = [((if ("a@b".data : Str).contains '@' then "email".data
                 else "given_name".data), uriEncode "a@b".data),
               ("limit".data, intToChars 10),
               ("fields".data, joinComma ["name".data])]
          ∧ ("email".data ∈ qsKeys (keapSearchQS "a@b".data 10 ["name".data])
              ↔ ("a@b".data : Str).contains '@' = true)
          ∧ ("given_name".data ∈ qsKeys (keapSearchQS "a@b".data 10 ["name".data])
              ↔ ("a@b".data : Str).contains '@' = false)) :=
  ⟨by decide, C10_search_key_selection "a@b".data 10 ["name".data] (by decide)⟩

theorem formSafe_int (i : Int) : ∀ c ∈ intToChars i, formSafe c = true := by
  intro c hc
  rcases intToChars_chars i c hc with hd | rfl
  · simp only [isDigitC, Bool.and_eq_true, decide_eq_true_eq] at hd
    simp only [formSafe, Bool.or_eq_true, Bool.and_eq_true, decide_eq_true_eq]
    tauto
  · decide

theorem uriSafe_int (i : Int) : ∀ c ∈ intToChars i, uriSafe c = true := by
  intro c hc
  rcases intToChars_chars i c hc with hd | rfl
  · simp only [isDigitC, Bool.and_eq_true, decide_eq_true_eq] at hd
    simp only [uriSafe, Bool.or_eq_true, Bool.and_eq_true, decide_eq_true_eq]
    tauto
  · decide

theorem formEncode_int (i : Int) : formEncode (intToChars i) = intToChars i :=
  formEncode_safe (formSafe_int i)

theorem axiosEncode_int (i : Int) : axiosEncode (intToChars i) = intToChars i :=
  encodeWith_safe (fun c hc => by simp [axiosEncodeChar, uriSafe_int i c hc])

theorem qsKeys_renderQS (ps : List (Str × Str))
    (h : ∀ p ∈ ps, ∀ c ∈ p.1, formSafe c = true) :
    qsKeys (renderQS ps) = ps.map Prod.fst := by
  by_cases hne : ps = []
  · subst hne; rfl
  · unfold qsKeys
    rw [qsPairs_renderQS ps hne h, List.map_map]
    exact List.map_congr_left (fun p _ => rfl)

theorem qsKeys_renderAxiosQS (ps : List (Str × Str))
    (h : ∀ p ∈ ps, ∀ c ∈ p.1, uriSafe c = true) :
    qsKeys (renderAxiosQS ps) = ps.map Prod.fst := by
  by_cases hne : ps = []
  · subst hne; rfl
  · unfold qsKeys
    rw [qsPairs_renderAxiosQS ps hne h, List.map_map]
    exact List.map_congr_left (fun p _ => rfl)

theorem undef_notin_renderQS :
    ∀ {ps : List (Str × Str)},
      (∀ p ∈ ps, ¬ ("undefined".data <:+: p.1)) →
      (∀ p ∈ ps, ¬ ("undefined".data <:+: p.2)) →
      ¬ ("undefined".data <:+: renderQS ps) := by
  intro ps
  induction ps with
  | nil =>
    intro _ _ h
    exact absurd (List.eq_nil_of_infix_nil h) (by decide)
  | cons p r ih =>
    intro hk hv h
    obtain ⟨k, v⟩ := p
    cases r with
    | nil =>
      rw [show renderQS [(k, v)] = formEncode k ++ '=' :: formEncode v from rfl] at h
      rcases infix_split_sep (by decide) h with h1 | h1
      · exact hk (k, v) (by simp)
          (infix_encodeWith formEncodeChar henc_form k _ (by decide) h1)
      · exact hv (k, v) (by simp)
          (infix_encodeWith formEncodeChar henc_form v _ (by decide) h1)
    | cons p2 r2 =>
      obtain ⟨k2, v2⟩ := p2
      rw [show renderQS ((k, v) :: (k2, v2) :: r2)
          = formEncode k ++ '=' :: formEncode v ++ '&' :: renderQS ((k2, v2) :: r2)
        from rfl] at h
      rw [show (formEncode k ++ '=' :: formEncode v ++ '&' :: renderQS ((k2, v2) :: r2) : Str)
          = formEncode k ++ '=' :: (formEncode v ++ '&' :: renderQS ((k2, v2) :: r2))
        from by simp] at h
      rcases infix_split_sep (by decide) h with h1 | h1
      · exact hk (k, v) (by simp)
          (infix_encodeWith formEncodeChar henc_form k _ (by decide) h1)
      · rcases infix_split_sep (by decide) h1 with h2 | h2
        · exact hv (k, v) (by simp)
            (infix_encodeWith formEncodeChar henc_form v _ (by decide) h2)
        · exact ih (fun q hq => hk q (by simp [hq])) (fun q hq => hv q (by simp [hq])) h2

theorem undef_notin_renderAxiosQS :
    ∀ {ps : List (Str × Str)},
      (∀ p ∈ ps, ¬ ("undefined".data <:+: p.1)) →
      (∀ p ∈ ps, ¬ ("undefined".data <:+: p.2)) →
      ¬ ("undefined".data <:+: renderAxiosQS ps) := by
  intro ps
  induction ps with
  | nil =>
    intro _ _ h
    exact absurd (List.eq_nil_of_infix_nil h) (by decide)
  | cons p r ih =>
    intro hk hv h
    obtain ⟨k, v⟩ := p
    cases r with
    | nil =>
      rw [show renderAxiosQS [(k, v)] = axiosEncode k ++ '=' :: axiosEncode v
        from rfl] at h
      rcases infix_split_sep (by decide) h with h1 | h1
      · exact hk (k, v) (by simp)
          (infix_encodeWith axiosEncodeChar henc_axios k _ (by decide) h1)
      · exact hv (k, v) (by simp)
          (infix_encodeWith axiosEncodeChar henc_axios v _ (by decide) h1)
    | cons p2 r2 =>
      obtain ⟨k2, v2⟩ := p2
      rw [show renderAxiosQS ((k, v) :: (k2, v2) :: r2)
          = axiosEncode k ++ '=' :: axiosEncode v ++ '&' :: renderAxiosQS ((k2, v2) :: r2)
        from rfl] at h
      rw [show (axiosEncode k ++ '=' :: axiosEncode v ++ '&' :: renderAxiosQS ((k2, v2) :: r2) : Str)
          = axiosEncode k ++ '=' :: (axiosEncode v ++ '&' :: renderAxiosQS ((k2, v2) :: r2))
        from by simp] at h
      rcases infix_split_sep (by decide) h with h1 | h1
      · exact hk (k, v) (by simp)
          (infix_encodeWith axiosEncodeChar henc_axios k _ (by decide) h1)
      · rcases infix_split_sep (by decide) h1 with h2 | h2
        · exact hv (k, v) (by simp)
            (infix_encodeWith axiosEncodeChar henc_axios v _ (by decide) h2)
        · exact ih (fun q hq => hk q (by simp [hq])) (fun q hq => hv q (by simp [hq])) h2

/-- C4 counterexample: (1) the string input `"undefined"` is valid, and the
GoHighLevel `getContacts` URL then contains a literal `undefined`; (2) an
explicitly supplied `page: 0` is falsy, so its key is dropped from the
query string even though the field is present in the input (and dually,
the zod defaults insert `page`/`limit` keys when those fields are absent). -/
theorem C4_counterexample :
    ("undefined".data
        <:+: GHL_API_BASE ++ ghlGetContactsEndpoint (some "undefined".data) 1 20)
      ∧ "page".data ∉ qsKeys (renderQS (ghlGetContactsPairs none 0 20)) := by
  decide

/-- C4 amended: for the cited list tools, provided the supplied string
inputs themselves contain no literal `undefined` (JavaScript never
interpolates an `undefined` value into these URLs, since every
interpolated field is either defaulted or presence-checked): the
GoHighLevel `getContacts` URL contains no `undefined` and its query keys
are exactly the truthy fields, with numeric values in decimal form; the
FreshDesk `list-tickets` URL likewise, with `page`/`per_page` always
present (they are defaulted) and `filter` iff truthy; and the Keap
`list-contacts` URL contains no `undefined`. -/
theorem C4_query_construction :
    (∀ (qopt : Option Str) (pg lim : Int),
      (∀ q0, qopt = some q0 → ¬ ("undefined".data <:+: q0)) →
      ¬ ("undefined".data <:+: GHL_API_BASE ++ ghlGetContactsEndpoint qopt pg lim)
        ∧ qsKeys (renderQS (ghlGetContactsPairs qopt pg lim))
            = (match qopt with
               | some q0 => if q0 ≠ [] then ["query".data] else []
               | none => []) ++
              (if pg ≠ 0 then ["page".data] else []) ++
              (if lim ≠ 0 then ["limit".data] else [])
        ∧ (pg ≠ 0 → ("page".data, intToChars pg)
            ∈ qsPairs (renderQS (ghlGetContactsPairs qopt pg lim))))
    ∧ (∀ (sd : Str) (pg pp : Int) (fopt : Option Str),
      ¬ ("undefined".data <:+: sd) →
      (∀ f0, fopt = some f0 → ¬ ("undefined".data <:+: f0)) →
      ¬ ("undefined".data <:+: fdListTicketsUrl sd pg pp fopt)
        ∧ qsKeys (renderAxiosQS (fdListTicketsPairs pg pp fopt))
            = ["page".data, "per_page".data] ++
              (match fopt with
               | some f0 => if f0 ≠ [] then ["filter".data] else []
               | none => [])
        ∧ ("page".data, intToChars pg)
            ∈ qsPairs (renderAxiosQS (fdListTicketsPairs pg pp fopt)))
    ∧ (∀ (lim : Int) (fields : List Str),
      (∀ fl ∈ fields, ¬ ("undefined".data <:+: fl)) →
      ¬ ("undefined".data <:+: keapListContactsUrl lim fields)) := by
  refine ⟨?_, ?_, ?_⟩
  · intro qopt pg lim hq
    have hmem : ∀ p ∈ ghlGetContactsPairs qopt pg lim,
        (∃ q0, qopt = some q0 ∧ p = ("query".data, q0))
          ∨ p = ("page".data, intToChars pg) ∨ p = ("limit".data, intToChars lim) := by
      intro p hp
      unfold ghlGetContactsPairs at hp
      rcases List.mem_append.1 hp with h | h
      · rcases List.mem_append.1 h with h | h
        · cases qopt with
          | none => exact absurd h (List.not_mem_nil p)
          | some q0 =>
            change p ∈ if q0 ≠ [] then [("query".data, q0)] else [] at h
            split at h
            · exact Or.inl ⟨q0, rfl, List.mem_singleton.1 h⟩
            · exact absurd h (List.not_mem_nil p)
        · split at h
          · exact Or.inr (Or.inl (List.mem_singleton.1 h))
          · exact absurd h (List.not_mem_nil p)
      · split at h
        · exact Or.inr (Or.inr (List.mem_singleton.1 h))
        · exact absurd h (List.not_mem_nil p)
    have hkeysSafe : ∀ p ∈ ghlGetContactsPairs qopt pg lim,
        ∀ c ∈ p.1, formSafe c = true := by
      intro p hp
      rcases hmem p hp with ⟨q0, _, rfl⟩ | rfl | rfl
      · show ∀ c ∈ "query".data, formSafe c = true
        decide
      · show ∀ c ∈ "page".data, formSafe c = true
        decide
      · show ∀ c ∈ "limit".data, formSafe c = true
        decide
    have hkInf : ∀ p ∈ ghlGetContactsPairs qopt pg lim,
        ¬ ("undefined".data <:+: p.1) := by
      intro p hp
      rcases hmem p hp with ⟨q0, _, rfl⟩ | rfl | rfl
      · show ¬ ("undefined".data <:+: "query".data)
        decide
      · show ¬ ("undefined".data <:+: "page".data)
        decide
      · show ¬ ("undefined".data <:+: "limit".data)
        decide
    have hvInf : ∀ p ∈ ghlGetContactsPairs qopt pg lim,
        ¬ ("undefined".data <:+: p.2) := by
      intro p hp
      rcases hmem p hp with ⟨q0, hqo, rfl⟩ | rfl | rfl
      · exact hq q0 hqo
      · exact undef_not_in_int pg
      · exact undef_not_in_int lim
    refine ⟨?_, ?_, ?_⟩
    · intro h
      have E : GHL_API_BASE ++ ghlGetContactsEndpoint qopt pg lim
          = "https://rest.gohighlevel.com/v1/contacts".data
              ++ '?' :: renderQS (ghlGetContactsPairs qopt pg lim) := by rfl
      rw [E] at h
      rcases infix_split_sep (by decide) h with h1 | h1
      · exact absurd h1 (by decide)
      · exact undef_notin_renderQS hkInf hvInf h1
    · rw [qsKeys_renderQS _ hkeysSafe]
      cases qopt with
      | none =>
        by_cases h1 : pg ≠ 0 <;> by_cases h2 : lim ≠ 0 <;>
          simp [ghlGetContactsPairs, h1, h2]
      | some q0 =>
        by_cases h0 : q0 ≠ [] <;> by_cases h1 : pg ≠ 0 <;> by_cases h2 : lim ≠ 0 <;>
          simp [ghlGetContactsPairs, h0, h1, h2]
    · intro hpg
      have hmemp : ("page".data, intToChars pg) ∈ ghlGetContactsPairs qopt pg lim := by
        unfold ghlGetContactsPairs
        refine List.mem_append.2 (Or.inl (List.mem_append.2 (Or.inr ?_)))
        rw [if_pos hpg]
        exact List.mem_singleton.2 rfl
      have hne : ghlGetContactsPairs qopt pg lim ≠ [] := by
        intro h0
        rw [h0] at hmemp
        exact List.not_mem_nil _ hmemp
      rw [qsPairs_renderQS _ hne hkeysSafe]
      refine List.mem_map.2 ⟨("page".data, intToChars pg), hmemp, ?_⟩
      show ("page".data, formEncode (intToChars pg)) = ("page".data, intToChars pg)
      rw [formEncode_int]
  · intro sd pg pp fopt hsd hf
    have hmem : ∀ p ∈ fdListTicketsPairs pg pp fopt,
        p = ("page".data, intToChars pg) ∨ p = ("per_page".data, intToChars pp)
          ∨ (∃ f0, fopt = some f0 ∧ p = ("filter".data, f0)) := by
      intro p hp
      unfold fdListTicketsPairs at hp
      rcases List.mem_append.1 hp with h | h
      · rcases List.mem_cons.1 h with rfl | h
        · exact Or.inl rfl
        · exact Or.inr (Or.inl (List.mem_singleton.1 h))
      · cases fopt with
        | none => exact absurd h (List.not_mem_nil p)
        | some f0 =>
          change p ∈ if f0 ≠ [] then [("filter".data, f0)] else [] at h
          split at h
          · exact Or.inr (Or.inr ⟨f0, rfl, List.mem_singleton.1 h⟩)
          · exact absurd h (List.not_mem_nil p)
    have hkeysSafe : ∀ p ∈ fdListTicketsPairs pg pp fopt,
        ∀ c ∈ p.1, uriSafe c = true := by
      intro p hp
      rcases hmem p hp with rfl | rfl | ⟨f0, _, rfl⟩
      · show ∀ c ∈ "page".data, uriSafe c = true
        decide
      · show ∀ c ∈ "per_page".data, uriSafe c = true
        decide
      · show ∀ c ∈ "filter".data, uriSafe c = true
        decide
    have hkInf : ∀ p ∈ fdListTicketsPairs pg pp fopt,
        ¬ ("undefined".data <:+: p.1) := by
      intro p hp
      rcases hmem p hp with rfl | rfl | ⟨f0, _, rfl⟩
      · show ¬ ("undefined".data <:+: "page".data)
        decide
      · show ¬ ("undefined".data <:+: "per_page".data)
        decide
      · show ¬ ("undefined".data <:+: "filter".data)
        decide
    have hvInf : ∀ p ∈ fdListTicketsPairs pg pp fopt,
        ¬ ("undefined".data <:+: p.2) := by
      intro p hp
      rcases hmem p hp with rfl | rfl | ⟨f0, hfo, rfl⟩
      · exact undef_not_in_int pg
      · exact undef_not_in_int pp
      · exact hf f0 hfo
    refine ⟨?_, ?_, ?_⟩
    · intro h
      have E1 : fdListTicketsUrl sd pg pp fopt
          = (fdBase sd ++ "/tickets".data)
              ++ '?' :: renderAxiosQS (fdListTicketsPairs pg pp fopt) := by
        unfold fdListTicketsUrl
        rw [List.append_assoc,
          show ("/tickets?".data : Str)
              ++ renderAxiosQS (fdListTicketsPairs pg pp fopt)
            = "/tickets".data ++ '?' :: renderAxiosQS (fdListTicketsPairs pg pp fopt)
            from rfl,
          ← List.append_assoc]
      have E2 : fdBase sd ++ "/tickets".data
          = ("https://".data ++ sd)
              ++ '.' :: "freshdesk.com/api/v2/tickets".data := by
        unfold fdBase
        rw [List.append_assoc,
          show (".freshdesk.com/api/v2".data : Str) ++ "/tickets".data
            = '.' :: "freshdesk.com/api/v2/tickets".data from rfl]
      rw [E1] at h
      rcases infix_split_sep (by decide) h with h1 | h1
      · rw [E2] at h1
        rcases infix_split_sep (by decide) h1 with h2 | h2
        · exact hsd (infix_drop_left (by decide) h2)
        · exact absurd h2 (by decide)
      · exact undef_notin_renderAxiosQS hkInf hvInf h1
    · rw [qsKeys_renderAxiosQS _ hkeysSafe]
      cases fopt with
      | none => simp [fdListTicketsPairs]
      | some f0 => by_cases h0 : f0 ≠ [] <;> simp [fdListTicketsPairs, h0]
    · have hne : fdListTicketsPairs pg pp fopt ≠ [] := by
        unfold fdListTicketsPairs
        simp
      rw [qsPairs_renderAxiosQS _ hne hkeysSafe]
      refine List.mem_map.2 ⟨("page".data, intToChars pg), ?_, ?_⟩
      · unfold fdListTicketsPairs
        exact List.mem_append.2 (Or.inl (List.mem_cons.2 (Or.inl rfl)))
      · show ("page".data, axiosEncode (intToChars pg)) = ("page".data, intToChars pg)
        rw [axiosEncode_int]
  · intro lim fields hf h
    have E : keapListContactsUrl lim fields
        = (keapBase ++ "/contacts?limit".data)
            ++ '=' :: (intToChars lim
              ++ '&' :: ("fields".data ++ '=' :: joinComma fields)) := by
      unfold keapListContactsUrl
      rw [show ("/contacts?limit=".data : Str) = "/contacts?limit".data ++ ['='] from rfl,
        show ("&fields=".data : Str) = ['&'] ++ ("fields".data ++ ['=']) from rfl]
      simp [List.append_assoc]
    rw [E] at h
    rcases infix_split_sep (by decide) h with h1 | h1
    · exact absurd h1 (by decide)
    · rcases infix_split_sep (by decide) h1 with h2 | h2
      · exact undef_not_in_int lim h2
      · rcases infix_split_sep (by decide) h2 with h3 | h3
        · exact absurd h3 (by decide)
        · obtain ⟨x, hx, hix⟩ := infix_joinComma (by decide) (by decide) h3
          exact hf x hx hix

/-- C4 witness: the amended statement applied to the Keap list tool at a
concrete clean input. -/
theorem C4_query_construction_witness :
    (∀ fl ∈ [("email".data : Str)], ¬ ("undefined".data <:+: fl))
      ∧ ¬ ("undefined".data <:+: keapListContactsUrl 10 ["email".data]) :=
  ⟨by decide, C4_query_construction.2.2 10 ["email".data] (by decide)⟩
